import Mathlib

/-!
A shallow embedding of the `_cpeg` PEG virtual machine, following `src/_cpeg.c`.

* Code units of the subject string, program counters and payload words are
  natural numbers.  The program counter is a C `unsigned int`: every update is
  taken modulo `2 ^ 32`, and `FAIL` is `(unsigned int)(-1)`.
* Pointers into the subject buffer are integer indices into `mem`, the list of
  code units that may be read.  `target` and `end` are indices into that buffer;
  reading outside `mem` is an out-of-bounds access.
* The process-wide globals `stack`, `stackpos`, `stacksize` form the record
  `Stack`; `run` receives them and hands them back, because the C function
  neither initialises nor resets them.  `stackpos` and `stacksize` are C `int`s:
  a computation on them whose result leaves the range `INT_MIN .. INT_MAX`
  (`stackpos + 1`, `stacksize += STACK_CHUNK`, `--stackpos`) is an overflow and
  ends the run with `Outcome.undefined`.  `realloc` is taken to succeed.
* An access outside an allocation ends a run with `Outcome.undefined`, and
  `assert(0)` ends it with `Outcome.abort` (the file does not define `NDEBUG`).
* The test `instr->count <= end - pos` of `iAny` is made on integers, as it is
  where `ptrdiff_t` is wider than `unsigned int`.
* The interpreter loop is `exec`, which performs a bounded number of
  iterations of the `for (;;)` loop; `run` reports `none` when the bound was
  not enough.
-/

namespace Cpeg

/-! ## Instructions -/

/-- The enumeration `OpCode`; `other` stands for a stored value outside the enumeration. -/
inductive OpCode where
  | iEnd
  | iChar
  | iJump
  | iChoice
  | iCall
  | iReturn
  | iCommit
  | iCapture
  | iFail
  | iAny
  | iCharset
  | iPartialCommit
  | iSpan
  | iFailTwice
  | iBackCommit
  | iOpenCall
  | other (code : Nat)
  deriving DecidableEq, Repr

/-- The number of bytes of a charset, `(UCHAR_MAX / CHAR_BIT) + 1`. -/
def CHARSET_BYTES : Nat := 255 / 8 + 1

/-- A charset is an array of `CHARSET_BYTES` bytes, given as the list of its bytes. -/
abbrev Charset := List Nat

/-- The macro `IN_CHARSET(set, ch)`: the byte `set[ch >> 3]` masked with
`1 << (ch & 7)`, read as a truth value.  The result is `none` when the index
`ch >> 3` lies outside the array. -/
def IN_CHARSET (set : Charset) (ch : Nat) : Option Bool :=
  match set[ch >>> 3]? with
  | none => none
  | some b => some ((b &&& (1 <<< (ch &&& 7))) != 0)

/-- The structure `Instruction`.  The members of its anonymous union that the
interpreter reads (`count`, `character`, `cset`) are separate fields; each
opcode reads only its own member. -/
structure Instruction where
  instr : OpCode
  offset : Int
  count : Nat
  character : Nat
  cset : Charset
  deriving DecidableEq, Repr

/-! ## The execution stack -/

/-- The tag of a stack entry. -/
inductive EntryType where
  | ReturnData
  | BacktrackData
  deriving DecidableEq, Repr

/-- The structure `StackEntry` as it lies in memory: the tag, then the union.
The members `ret` and `alternative` are both the first word of the union, so
they are one field here; `pos` and `capture_info` keep whatever was last
stored in them. -/
structure StackEntry where
  entry_type : EntryType
  alternative : Nat
  pos : Int
  capture_info : Nat
  deriving DecidableEq, Repr

/-- The member `ret`, which shares its storage with `alternative`. -/
def StackEntry.ret (e : StackEntry) : Nat := e.alternative

/-- The three globals `stack`, `stackpos`, `stacksize`.  The list `stack` is the
allocated array (empty for the initial `NULL`). -/
structure Stack where
  stack : List StackEntry
  stackpos : Int
  stacksize : Int
  deriving DecidableEq, Repr

/-- The state of the globals when the module is loaded. -/
def Stack.initial : Stack := { stack := [], stackpos := -1, stacksize := 0 }

/-- The constant `STACK_CHUNK`. -/
def STACK_CHUNK : Int := 100

/-- The largest value of an `int`. -/
def INT_MAX : Int := 2147483647

/-- The smallest value of an `int`. -/
def INT_MIN : Int := -2147483648

/-- The content of a cell that `realloc` has just added. -/
def freshEntry : StackEntry :=
  { entry_type := .ReturnData, alternative := 0, pos := 0, capture_info := 0 }

/-- The call `realloc(stack, n * sizeof(StackEntry))`: the first `n` cells are
kept and the array is extended to `n` cells. -/
def realloc (cells : List StackEntry) (n : Int) : List StackEntry :=
  cells.take n.toNat ++ List.replicate (n.toNat - cells.length) freshEntry

/-- The function `Stack_Ensure`.  The result is `none` when `stackpos + 1` or
`stacksize += STACK_CHUNK` overflows the `int`. -/
def Stack_Ensure (g : Stack) : Option Stack :=
  if INT_MAX < g.stackpos + 1 then none
  else if g.stackpos + 1 ≥ g.stacksize then
    if INT_MAX < g.stacksize + STACK_CHUNK then none
    else some { g with stacksize := g.stacksize + STACK_CHUNK,
                       stack := realloc g.stack (g.stacksize + STACK_CHUNK) }
  else some g

/-- The macro `STACK_EMPTY()`. -/
def STACK_EMPTY (g : Stack) : Bool := g.stackpos == -1

/-- The macro `STACK_TOP()` used as a value: the cell `stack[stackpos]`, or
`none` when `stackpos` is not an index of the array. -/
def STACK_TOP (g : Stack) : Option StackEntry :=
  if 0 ≤ g.stackpos then g.stack[g.stackpos.toNat]? else none

/-- The macro `STACK_TOPTYPE()`. -/
def STACK_TOPTYPE (g : Stack) : Option EntryType :=
  (STACK_TOP g).map StackEntry.entry_type

/-- The macro `STACK_POP()`, for a `stackpos` above `INT_MIN`. -/
def STACK_POP (g : Stack) : Stack := { g with stackpos := g.stackpos - 1 }

/-- The decrement `--stackpos` of `STACK_POP()` overflows the `int`.  This is
excluded wherever `stack[stackpos]` has just been read, since `stackpos` is then
an index of the array. -/
def popOverflows (g : Stack) : Bool := decide (g.stackpos - 1 < INT_MIN)

/-- An assignment to members of `stack[stackpos]`: `none` when `stackpos` is
not an index of the array. -/
def storeTop (g : Stack) (f : StackEntry → StackEntry) : Option Stack :=
  match STACK_TOP g with
  | none => none
  | some e => some { g with stack := g.stack.set g.stackpos.toNat (f e) }

/-- The macro `STACK_PUSHRET(rtn)`: only the tag and `ret` are assigned.  After
`Stack_Ensure()` has computed `stackpos + 1`, the increment `++stackpos` does
not overflow. -/
def STACK_PUSHRET (g : Stack) (rtn : Nat) : Option Stack :=
  match Stack_Ensure g with
  | none => none
  | some g1 =>
    storeTop { g1 with stackpos := g1.stackpos + 1 }
      (fun e => { e with entry_type := .ReturnData, alternative := rtn })

/-- The macro `STACK_PUSHALT(alt, psn, cap)`. -/
def STACK_PUSHALT (g : Stack) (alt : Nat) (psn : Int) (cap : Nat) : Option Stack :=
  match Stack_Ensure g with
  | none => none
  | some g1 =>
    storeTop { g1 with stackpos := g1.stackpos + 1 }
      (fun _ => { entry_type := .BacktrackData, alternative := alt, pos := psn,
                  capture_info := cap })

/-! ## The interpreter -/

/-- The constant `FAIL`, `(unsigned int)(-1)`. -/
def FAIL : Nat := 4294967295

/-- The update `pc += offset` on an `unsigned int`. -/
def addOffset (pc : Nat) (offset : Int) : Nat :=
  (((pc : Int) + offset) % 4294967296).toNat

/-- The update `pc += 1` on an `unsigned int`. -/
def succPc (pc : Nat) : Nat := (pc + 1) % 4294967296

/-- The value returned by `run`: a pointer to the first unmatched code unit, or `NULL`. -/
inductive Result where
  | success (pos : Int)
  | noMatch
  deriving DecidableEq, Repr

/-- How a call of `run` ends: it returns (leaving the globals in some state),
or it accesses memory outside an allocation, or it stops in `assert(0)`. -/
inductive Outcome where
  | ret (result : Result) (stk : Stack)
  | undefined
  | abort
  deriving DecidableEq, Repr

/-- The locals `pc`, `pos`, `capture` of `run` together with the globals. -/
structure Config where
  pc : Nat
  pos : Int
  capture : Nat
  stk : Stack
  deriving DecidableEq, Repr

/-- The effect of one iteration of the loop. -/
inductive Status where
  | running (c : Config)
  | done (o : Outcome)
  deriving DecidableEq, Repr

/-- The read `*pos`. -/
def readUnit (mem : List Nat) (pos : Int) : Option Nat :=
  if 0 ≤ pos then mem[pos.toNat]? else none

/-- The tail shared by `iAny`, `iChar` and `iCharset` when the test fails:
`else if (instr->offset) pc += instr->offset; else pc = FAIL;`. -/
def offsetOrFail (instr : Instruction) (c : Config) : Status :=
  if instr.offset ≠ 0 then .running { c with pc := addOffset c.pc instr.offset }
  else .running { c with pc := FAIL }

/-- The `switch (instr->instr)` of `run`. -/
def dispatch (instr : Instruction) (mem : List Nat) (endp : Int) (c : Config) : Status :=
  match instr.instr with
  | .iEnd => .done (.ret (.success c.pos) c.stk)
  | .iJump => .running { c with pc := addOffset c.pc instr.offset }
  | .iCall =>
    match STACK_PUSHRET c.stk (succPc c.pc) with
    | none => .done .undefined
    | some g => .running { c with pc := addOffset c.pc instr.offset, stk := g }
  | .iReturn =>
    match STACK_TOP c.stk with
    | none => .done .undefined
    | some e => .running { c with pc := e.ret, stk := STACK_POP c.stk }
  | .iCommit =>
    if popOverflows c.stk then .done .undefined
    else .running { c with pc := addOffset c.pc instr.offset, stk := STACK_POP c.stk }
  | .iChoice =>
    match STACK_PUSHALT c.stk (addOffset c.pc instr.offset) (c.pos - instr.count)
        c.capture with
    | none => .done .undefined
    | some g => .running { c with pc := succPc c.pc, stk := g }
  | .iPartialCommit =>
    match STACK_TOPTYPE c.stk with
    | none => .done .undefined
    | some .BacktrackData =>
      match storeTop c.stk
          (fun e => { e with pos := c.pos, capture_info := c.capture }) with
      | none => .done .undefined
      | some g => .running { c with pc := addOffset c.pc instr.offset, stk := g }
    | some .ReturnData => .done .abort
  | .iBackCommit =>
    match STACK_TOP c.stk with
    | none => .done .undefined
    | some e =>
      match e.entry_type with
      | .BacktrackData =>
        .running { pc := addOffset c.pc instr.offset, pos := e.pos,
                   capture := e.capture_info, stk := STACK_POP c.stk }
      | .ReturnData => .done .abort
  | .iCapture => .running { c with pc := succPc c.pc }
  | .iFailTwice =>
    if popOverflows c.stk then .done .undefined
    else .running { c with pc := FAIL, stk := STACK_POP c.stk }
  | .iFail => .running { c with pc := FAIL }
  | .iAny =>
    if (instr.count : Int) ≤ endp - c.pos then
      .running { c with pc := succPc c.pc, pos := c.pos + instr.count }
    else offsetOrFail instr c
  | .iChar =>
    if c.pos < endp then
      match readUnit mem c.pos with
      | none => .done .undefined
      | some ch =>
        if ch = instr.character then
          .running { c with pos := c.pos + 1, pc := succPc c.pc }
        else offsetOrFail instr c
    else offsetOrFail instr c
  | .iCharset =>
    match readUnit mem c.pos with
    | none => .done .undefined
    | some ch =>
      match IN_CHARSET instr.cset ch with
      | none => .done .undefined
      | some true => .running { c with pc := succPc c.pc, pos := c.pos + 1 }
      | some false => offsetOrFail instr c
  | .iSpan =>
    match readUnit mem c.pos with
    | none => .done .undefined
    | some ch =>
      match IN_CHARSET instr.cset ch with
      | none => .done .undefined
      | some true => .running { c with pos := c.pos + 1 }
      | some false => .running { c with pc := succPc c.pc }
  | _ => .running { c with pc := succPc c.pc }

/-- The fail state of `run`: the block guarded by `if (pc == FAIL)`. -/
def failStep (c : Config) : Status :=
  if STACK_EMPTY c.stk then .done (.ret .noMatch c.stk)
  else
    match STACK_TOP c.stk with
    | none => .done .undefined
    | some e =>
      match e.entry_type with
      | .BacktrackData =>
        .running { pc := e.alternative, pos := e.pos, capture := e.capture_info,
                   stk := STACK_POP c.stk }
      | .ReturnData => .running { c with stk := STACK_POP c.stk }

/-- One iteration of the `for (;;)` loop of `run`. -/
def step (prog : List Instruction) (mem : List Nat) (endp : Int) (c : Config) : Status :=
  if c.pc = FAIL then failStep c
  else
    match prog[c.pc]? with
    | none => .done .undefined
    | some instr => dispatch instr mem endp c

/-- At most `n` iterations of the loop, from configuration `c`. -/
def exec (prog : List Instruction) (mem : List Nat) (endp : Int) : Nat → Config → Status
  | 0, c => .running c
  | n + 1, c =>
    match step prog mem endp c with
    | .running c1 => exec prog mem endp n c1
    | .done o => .done o

/-- The configuration in which `run` enters its loop. -/
def entry (target : Int) (stk : Stack) : Config :=
  { pc := 0, pos := target, capture := 0, stk := stk }

/-- The function `run (prog, target, end)`, on the buffer `mem` and the globals
`stk`, with a bound on the number of loop iterations. -/
def run (prog : List Instruction) (mem : List Nat) (target endp : Int) (stk : Stack)
    (fuel : Nat) : Option Outcome :=
  match exec prog mem endp fuel (entry target stk) with
  | .done o => some o
  | .running _ => none

/-! ## Building instructions -/

/-- The payload bytes of an instruction that carries no charset. -/
def noCset : Charset := List.replicate CHARSET_BYTES 0

/-- An instruction with opcode and offset only. -/
def plain (op : OpCode) (offset : Int) : Instruction :=
  { instr := op, offset := offset, count := 0, character := 0, cset := noCset }

/-- The instruction `End`. -/
def mkEnd : Instruction := plain .iEnd 0

/-- The instruction `Char` with its `character` payload. -/
def mkChar (c : Nat) (offset : Int) : Instruction :=
  { plain .iChar offset with character := c }

/-- The instruction `Choice` with its `count` payload. -/
def mkChoice (offset : Int) (lookback : Nat) : Instruction :=
  { plain .iChoice offset with count := lookback }

/-- The instruction `Commit`. -/
def mkCommit (offset : Int) : Instruction := plain .iCommit offset

/-- The instruction `FailTwice`. -/
def mkFailTwice : Instruction := plain .iFailTwice 0

/-- The instruction `Fail`. -/
def mkFail : Instruction := plain .iFail 0

/-- The instruction `Span` with its `cset` payload. -/
def mkSpan (set : Charset) : Instruction :=
  { plain .iSpan 0 with cset := set }

/-- The instruction `Charset` with its `cset` payload. -/
def mkCharset (set : Charset) (offset : Int) : Instruction :=
  { plain .iCharset offset with cset := set }

/-- A literal compiled as one `Char` instruction with offset 0 per code unit. -/
def literal (l : List Nat) : List Instruction := l.map (fun c => mkChar c 0)

/-- The charset whose members are the listed byte values, built with `SET_CHARSET`. -/
def SET_CHARSET (set : Charset) (ch : Nat) : Charset :=
  match set[ch >>> 3]? with
  | none => set
  | some b => set.set (ch >>> 3) (b ||| (1 <<< (ch &&& 7)))

/-- The charset holding exactly the listed byte values. -/
def charsetOf (l : List Nat) : Charset := l.foldl SET_CHARSET noCset

/-! ## Notions used in the statements -/

/-- The globals are consistent: the array has `stacksize` cells and `stackpos`
is `-1` or an index of the array. -/
def Stack.wf (g : Stack) : Prop :=
  (g.stack.length : Int) = g.stacksize ∧ -1 ≤ g.stackpos ∧ g.stackpos < g.stacksize

/-- A push on `g` stays in the `int` range: neither `stackpos + 1` nor, when the
array has to grow, `stacksize + STACK_CHUNK` exceeds `INT_MAX`. -/
def Stack.canGrow (g : Stack) : Prop :=
  g.stackpos + 1 ≤ INT_MAX ∧
    (g.stackpos + 1 ≥ g.stacksize → g.stacksize + STACK_CHUNK ≤ INT_MAX)

/-- The literal `A` occurs in `S` at position `k`. -/
def occursAt (A S : List Nat) (k : Nat) : Prop := (S.drop k).take A.length = A

instance (A S : List Nat) (k : Nat) : Decidable (occursAt A S k) :=
  inferInstanceAs (Decidable ((S.drop k).take A.length = A))

/-- The frames on the stack, bottom first: the cells `stack[0 .. stackpos]`. -/
def Stack.frames (g : Stack) : List StackEntry := g.stack.take (g.stackpos + 1).toNat

/-- A request to push: `STACK_PUSHRET(rtn)` or `STACK_PUSHALT(alt, psn, cap)`.  It
is also what can be observed of a frame: its tag and the payload of the tagged
member. -/
inductive Push where
  | ret (rtn : Nat)
  | alt (alt : Nat) (psn : Int) (cap : Nat)
  deriving DecidableEq, Repr

/-- Perform one push. -/
def Push.apply (g : Stack) : Push → Option Stack
  | .ret r => STACK_PUSHRET g r
  | .alt a p c => STACK_PUSHALT g a p c

/-- Perform the pushes of a list in order, with no pop in between. -/
def pushAll : Stack → List Push → Option Stack
  | g, [] => some g
  | g, p :: ps =>
    match p.apply g with
    | none => none
    | some g1 => pushAll g1 ps

/-- The tag of an entry and the payload that belongs to the tag. -/
def StackEntry.view (e : StackEntry) : Push :=
  match e.entry_type with
  | .ReturnData => .ret e.ret
  | .BacktrackData => .alt e.alternative e.pos e.capture_info

/-- Read `STACK_TOP()` and then `STACK_POP()`, `n` times; the entries read, first
read first, and the globals afterwards. -/
def popAll : Nat → Stack → Option (List StackEntry × Stack)
  | 0, g => some ([], g)
  | n + 1, g =>
    match STACK_TOP g with
    | none => none
    | some e =>
      match popAll n (STACK_POP g) with
      | none => none
      | some (es, g1) => some (e :: es, g1)

/-- The program `[Choice(offset = |A|+2, lookback 0), A, Commit(offset = |B|+1), B, End]`
for the ordered choice `A / B` of two literals. -/
def choiceProg (A B : List Nat) : List Instruction :=
  mkChoice (A.length + 2) 0 :: (literal A ++ mkCommit (B.length + 1) :: (literal B ++ [mkEnd]))

/-- The program `[Choice(offset = |inner|+2, lookback 0), inner, FailTwice, End]` for
the negative lookahead of a literal. -/
def notProg (inner : List Nat) : List Instruction :=
  mkChoice (inner.length + 2) 0 :: (literal inner ++ [mkFailTwice, mkEnd])

/-- The function `cpeg_match` as far as the matcher is concerned: the program is
run on the whole string from its first code unit.  The buffer that the `u#`
argument refers to is the string followed by a terminating 0.  The result of
`run` is an index into that buffer, so `result - str` is the index itself. -/
def cpeg_match (instr : List Instruction) (str : List Nat) (g : Stack) (fuel : Nat) :
    Option Outcome :=
  run instr (str ++ [0]) 0 str.length g fuel

/-- The value a call returned, if it returned. -/
def resultOf (o : Option Outcome) : Option Result :=
  match o with
  | some (.ret r _) => some r
  | _ => none

/-- The globals after a call that returned; `g` otherwise. -/
def globalsAfter (o : Option Outcome) (g : Stack) : Stack :=
  match o with
  | some (.ret _ s) => s
  | _ => g

/-- The instruction `Call`. -/
def mkCall (offset : Int) : Instruction := plain .iCall offset

/-- The instruction `Return`. -/
def mkReturn : Instruction := plain .iReturn 0

/-- A stack of four frames, bottom first: a Backtrack frame, a second Backtrack
frame with alternative 5, saved position 7 and saved capture 1, and two Return
frames. -/
def sampleStack : Stack :=
  { stack := [⟨.BacktrackData, 2, 0, 0⟩, ⟨.BacktrackData, 5, 7, 1⟩, ⟨.ReturnData, 3, 0, 0⟩,
              ⟨.ReturnData, 4, 0, 0⟩],
    stackpos := 3, stacksize := 4 }

/-- A program whose second `Choice`, at index 1 with offset `-2`, stores the
value of `FAIL` as its alternative (and looks back one code unit). -/
def sentinelProg : List Instruction := [mkChoice 3 0, mkChoice (-2) 1, mkFail, mkEnd]

/-- Every Backtrack frame on the stack has a saved position at or after `target`. -/
def savedPosFrom (target : Int) (g : Stack) : Prop :=
  ∀ (i : Nat) (e : StackEntry), (i : Int) ≤ g.stackpos → g.stack[i]? = some e →
    e.entry_type = .BacktrackData → target ≤ e.pos

/-- The instruction `Any` with its `count` payload. -/
def mkAny (n : Nat) (offset : Int) : Instruction :=
  { plain .iAny offset with count := n }

/-- The instruction `PartialCommit`. -/
def mkPartialCommit (offset : Int) : Instruction := plain .iPartialCommit offset

/-- The instruction `BackCommit`. -/
def mkBackCommit (offset : Int) : Instruction := plain .iBackCommit offset

/-- The instruction `OpenCall`. -/
def mkOpenCall : Instruction := plain .iOpenCall 0

/-- The program `[Choice(3, 0), Char(c, 0), PartialCommit(-1), End]` for the greedy
repetition of one code unit. -/
def starProg (c : Nat) : List Instruction :=
  [mkChoice 3 0, mkChar c 0, mkPartialCommit (-1), mkEnd]

/-- The program `[Choice(|inner|+2, 0), inner, BackCommit(2), Fail, End]` for the
and-predicate of a literal. -/
def andProg (inner : List Nat) : List Instruction :=
  mkChoice (inner.length + 2) 0 :: (literal inner ++ [mkBackCommit 2, mkFail, mkEnd])

/-- The program `[Call(2), End, body, Return]` that calls a literal. -/
def callProg (body : List Nat) : List Instruction :=
  mkCall 2 :: mkEnd :: (literal body ++ [mkReturn])

/-- The program `[body, End]`. -/
def inlineProg (body : List Nat) : List Instruction := literal body ++ [mkEnd]

/-- A stack of two Backtrack frames, bottom first: `(2, 0, 0)` and `(3, 1, 0)`. -/
def twoFrames : Stack :=
  { stack := [⟨.BacktrackData, 2, 0, 0⟩, ⟨.BacktrackData, 3, 1, 0⟩],
    stackpos := 1, stacksize := 2 }

/-! ## Basic facts about the loop -/


theorem exec_add (prog : List Instruction) (mem : List Nat) (endp : Int) (a b : Nat)
    (c : Config) :
    exec prog mem endp (a + b) c =
      match exec prog mem endp a c with
      | .running c1 => exec prog mem endp b c1
      | .done o => .done o := by
  induction a generalizing c with
  | zero => simp [exec]
  | succ a ih =>
    rw [Nat.succ_add]
    simp only [exec]
    cases step prog mem endp c with
    | running c1 => simpa using ih c1
    | done o => rfl

theorem exec_done_mono {prog : List Instruction} {mem : List Nat} {endp : Int} {n m : Nat}
    {c : Config} {o : Outcome} (h : exec prog mem endp n c = .done o) (hnm : n ≤ m) :
    exec prog mem endp m c = .done o := by
  obtain ⟨d, rfl⟩ := Nat.exists_eq_add_of_le hnm
  rw [exec_add, h]

theorem run_mono {prog : List Instruction} {mem : List Nat} {target endp : Int} {stk : Stack}
    {n m : Nat} {o : Outcome} (h : run prog mem target endp stk n = some o) (hnm : n ≤ m) :
    run prog mem target endp stk m = some o := by
  unfold run at h ⊢
  cases hx : exec prog mem endp n (entry target stk) with
  | running c1 => rw [hx] at h; cases h
  | done o1 =>
    rw [hx] at h
    rw [exec_done_mono hx hnm]
    exact h

theorem exec_step_running {prog : List Instruction} {mem : List Nat} {endp : Int} {c c1 : Config}
    (h : step prog mem endp c = .running c1) (n : Nat) :
    exec prog mem endp (n + 1) c = exec prog mem endp n c1 := by
  simp only [exec, h]

theorem exec_step_done {prog : List Instruction} {mem : List Nat} {endp : Int} {c : Config}
    {o : Outcome} (h : step prog mem endp c = .done o) (n : Nat) :
    exec prog mem endp (n + 1) c = .done o := by
  simp only [exec, h]

theorem step_eq_dispatch {prog : List Instruction} {mem : List Nat} {endp : Int} {c : Config}
    {instr : Instruction} (hpc : c.pc ≠ FAIL) (hi : prog[c.pc]? = some instr) :
    step prog mem endp c = dispatch instr mem endp c := by
  simp [step, hpc, hi]

theorem step_fail_empty (prog : List Instruction) (mem : List Nat) (endp : Int) (c : Config)
    (hpc : c.pc = FAIL) (he : c.stk.stackpos = -1) :
    step prog mem endp c = .done (.ret .noMatch c.stk) := by
  simp [step, hpc, failStep, STACK_EMPTY, he]

theorem dispatch_end (instr : Instruction) (mem : List Nat) (endp : Int) (c : Config)
    (h : instr.instr = .iEnd) :
    dispatch instr mem endp c = .done (.ret (.success c.pos) c.stk) := by
  simp [dispatch, h]

theorem dispatch_char_hit (instr : Instruction) (mem : List Nat) (endp : Int) (c : Config)
    (h : instr.instr = .iChar) (hlt : c.pos < endp)
    (hr : readUnit mem c.pos = some instr.character) :
    dispatch instr mem endp c = .running { c with pos := c.pos + 1, pc := succPc c.pc } := by
  simp [dispatch, h, hlt, hr]

theorem dispatch_char_miss (instr : Instruction) (mem : List Nat) (endp : Int) (c : Config)
    (h : instr.instr = .iChar) (ho : instr.offset = 0)
    (hm : c.pos < endp → ∃ ch, readUnit mem c.pos = some ch ∧ ch ≠ instr.character) :
    dispatch instr mem endp c = .running { c with pc := FAIL } := by
  by_cases hlt : c.pos < endp
  · obtain ⟨ch, hr, hne⟩ := hm hlt
    simp [dispatch, h, hlt, hr, hne, offsetOrFail, ho]
  · simp [dispatch, h, hlt, offsetOrFail, ho]

theorem readUnit_append_lt (S rest : List Nat) (k : Nat) (hk : k < S.length) :
    readUnit (S ++ rest) (k : Int) = S[k]? := by
  simp [readUnit, List.getElem?_append_left hk]

theorem run_of_exec {prog : List Instruction} {mem : List Nat} {target endp : Int}
    {stk : Stack} {n : Nat} {o : Outcome}
    (h : exec prog mem endp n (entry target stk) = .done o) :
    run prog mem target endp stk n = some o := by
  unfold run
  rw [h]

/-! ## The stack primitives -/

theorem Stack_Ensure_spec (g : Stack) (hwf : g.wf) (hroom : g.canGrow) :
    ∃ g0, Stack_Ensure g = some g0 ∧
      (g0.stack.length : Int) = g0.stacksize ∧
      g0.stackpos = g.stackpos ∧
      g.stackpos + 1 < g0.stacksize ∧
      (∀ i : Nat, i < g.stack.length → g0.stack[i]? = g.stack[i]?) ∧
      g0.stacksize =
        if g.stackpos + 1 ≥ g.stacksize then g.stacksize + 100 else g.stacksize := by
  obtain ⟨hlen, hlo, hhi⟩ := hwf
  obtain ⟨hr1, hr2⟩ := hroom
  unfold Stack_Ensure
  rw [if_neg (not_lt.mpr hr1)]
  by_cases hc : g.stackpos + 1 ≥ g.stacksize
  · rw [if_pos hc, if_pos hc, if_neg (not_lt.mpr (hr2 hc))]
    have htake : List.take (g.stacksize + 100).toNat g.stack = g.stack := by
      apply List.take_of_length_le
      omega
    refine ⟨_, rfl, ?_, rfl, ?_, ?_, rfl⟩
    · show ((realloc g.stack (g.stacksize + 100)).length : Int) = g.stacksize + 100
      unfold realloc
      rw [htake]
      simp only [List.length_append, List.length_replicate]
      omega
    · show g.stackpos + 1 < g.stacksize + 100
      omega
    · intro i hi
      show (realloc g.stack (g.stacksize + 100))[i]? = g.stack[i]?
      unfold realloc
      rw [htake, List.getElem?_append_left hi]
  · rw [if_neg hc, if_neg hc]
    exact ⟨g, rfl, hlen, rfl, by omega, fun _ _ => rfl, rfl⟩

theorem storeTop_push_spec (g : Stack) (hwf : g.wf) (hroom : g.canGrow)
    (f : StackEntry → StackEntry) :
    ∃ g0 g1 cell, Stack_Ensure g = some g0 ∧
      storeTop { g0 with stackpos := g0.stackpos + 1 } f = some g1 ∧
      g1.wf ∧ g1.stackpos = g.stackpos + 1 ∧
      (∀ i : Nat, (i : Int) ≤ g.stackpos → g1.stack[i]? = g.stack[i]?) ∧
      STACK_TOP g1 = some (f cell) ∧
      g1.stacksize = if g.stackpos + 1 ≥ g.stacksize then g.stacksize + 100 else g.stacksize := by
  obtain ⟨g0, h0, hlen1, hpos1, hlt1, hkeep, hsize⟩ := Stack_Ensure_spec g hwf hroom
  obtain ⟨hlen, hlo, hhi⟩ := hwf
  have hidx : (g.stackpos + 1).toNat < g0.stack.length := by omega
  have hnn : 0 ≤ g0.stackpos + 1 := by omega
  have hnn2 : 0 ≤ g.stackpos + 1 := by omega
  refine ⟨g0, { g0 with
              stackpos := g0.stackpos + 1,
              stack := g0.stack.set (g0.stackpos + 1).toNat
                (f (g0.stack[(g.stackpos + 1).toNat])) },
          g0.stack[(g.stackpos + 1).toNat], h0, ?_, ?_, ?_, ?_, ?_, ?_⟩
  · simp only [storeTop, STACK_TOP, hnn2, if_true, hpos1, List.getElem?_eq_getElem hidx]
  · refine ⟨?_, ?_, ?_⟩
    · simp only [List.length_set]
      exact hlen1
    · show -1 ≤ g0.stackpos + 1
      omega
    · show g0.stackpos + 1 < g0.stacksize
      omega
  · show g0.stackpos + 1 = g.stackpos + 1
    omega
  · intro i hi
    show (g0.stack.set (g0.stackpos + 1).toNat _)[i]? = _
    rw [List.getElem?_set_ne (by omega)]
    exact hkeep i (by omega)
  · simp only [STACK_TOP, hnn2, if_true, hpos1]
    rw [List.getElem?_set_self hidx]
  · exact hsize

theorem canGrow_of_empty {g : Stack} (hwf : g.wf) (hstk : g.stackpos = -1) : g.canGrow := by
  obtain ⟨hlen, hlo, hhi⟩ := hwf
  refine ⟨?_, ?_⟩
  · rw [hstk]
    decide
  · intro hc
    have h0 : g.stacksize = 0 := by omega
    rw [h0]
    decide

theorem frames_push {g g1 : Stack} {e : StackEntry} (hwf : g.wf)
    (hpos : g1.stackpos = g.stackpos + 1)
    (hkeep : ∀ i : Nat, (i : Int) ≤ g.stackpos → g1.stack[i]? = g.stack[i]?)
    (htop : STACK_TOP g1 = some e) :
    g1.frames = g.frames ++ [e] := by
  obtain ⟨hlen, hlo, hhi⟩ := hwf
  have hnn : 0 ≤ g1.stackpos := by omega
  simp only [STACK_TOP, hnn, if_true] at htop
  have hfl : g.frames.length = (g.stackpos + 1).toNat := by
    unfold Stack.frames
    rw [List.length_take]
    omega
  apply List.ext_getElem?
  intro i
  unfold Stack.frames at hfl ⊢
  rw [List.getElem?_take]
  by_cases h1 : i < (g.stackpos + 1).toNat
  · rw [if_pos (by omega), List.getElem?_append_left (by omega), List.getElem?_take,
      if_pos h1]
    exact hkeep i (by omega)
  · by_cases h2 : i = (g.stackpos + 1).toNat
    · rw [if_pos (by omega), List.getElem?_append_right (by omega), hfl, h2]
      have : g1.stackpos.toNat = (g.stackpos + 1).toNat := by omega
      rw [← this, htop]
      simp
    · rw [if_neg (by omega), List.getElem?_append_right (by omega), hfl]
      have : i - (g.stackpos + 1).toNat = (i - (g.stackpos + 1).toNat - 1) + 1 := by omega
      rw [this]
      rfl

theorem push_apply_spec (g : Stack) (hwf : g.wf) (hroom : g.canGrow) (p : Push) :
    ∃ g1 e, p.apply g = some g1 ∧ g1.wf ∧ g1.stackpos = g.stackpos + 1 ∧
      g1.frames = g.frames ++ [e] ∧ e.view = p ∧
      g1.stacksize = if g.stackpos + 1 ≥ g.stacksize then g.stacksize + 100 else g.stacksize := by
  cases p with
  | ret r =>
    obtain ⟨g0, g1, cell, h0, h1, h2, h3, h4, h5, h6⟩ := storeTop_push_spec g hwf hroom
      (fun e => { e with entry_type := .ReturnData, alternative := r })
    refine ⟨g1, _, ?_, h2, h3, frames_push hwf h3 h4 h5, rfl, h6⟩
    simp only [Push.apply, STACK_PUSHRET, h0]
    exact h1
  | alt a ps c =>
    obtain ⟨g0, g1, cell, h0, h1, h2, h3, h4, h5, h6⟩ := storeTop_push_spec g hwf hroom
      (fun _ => { entry_type := .BacktrackData, alternative := a, pos := ps,
                  capture_info := c })
    refine ⟨g1, _, ?_, h2, h3, frames_push hwf h3 h4 h5, rfl, h6⟩
    simp only [Push.apply, STACK_PUSHALT, h0]
    exact h1

theorem frames_length {g : Stack} (hwf : g.wf) : (g.frames.length : Int) = g.stackpos + 1 := by
  obtain ⟨hlen, hlo, hhi⟩ := hwf
  unfold Stack.frames
  rw [List.length_take]
  omega

theorem top_pop_spec {g : Stack} (hwf : g.wf) (hne : 0 ≤ g.stackpos) :
    ∃ e, STACK_TOP g = some e ∧ g.frames = (STACK_POP g).frames ++ [e] ∧ (STACK_POP g).wf := by
  obtain ⟨hlen, hlo, hhi⟩ := hwf
  have hidx : g.stackpos.toNat < g.stack.length := by omega
  have hwfp : (STACK_POP g).wf := by
    refine ⟨hlen, ?_, ?_⟩
    · show -1 ≤ g.stackpos - 1
      omega
    · show g.stackpos - 1 < g.stacksize
      omega
  have htop : STACK_TOP g = some g.stack[g.stackpos.toNat] := by
    simp only [STACK_TOP, hne, if_true, List.getElem?_eq_getElem hidx]
  refine ⟨g.stack[g.stackpos.toNat], htop, ?_, hwfp⟩
  exact frames_push hwfp (by show g.stackpos = g.stackpos - 1 + 1; omega) (fun _ _ => rfl) htop

theorem pushAll_spec (ps : List Push) (g : Stack) (hwf : g.wf)
    (hsz : g.stacksize = 100 * ((g.stackpos + 1 + 99) / 100))
    (hN : g.stackpos + 1 + ps.length ≤ 2147483600) :
    ∃ g1 es, pushAll g ps = some g1 ∧ g1.wf ∧ g1.stackpos = g.stackpos + ps.length ∧
      g1.frames = g.frames ++ es ∧ es.map StackEntry.view = ps ∧
      g1.stacksize = 100 * ((g1.stackpos + 1 + 99) / 100) := by
  induction ps generalizing g with
  | nil => exact ⟨g, [], rfl, hwf, by simp, by simp, rfl, hsz⟩
  | cons p ps ih =>
    have hN1 : g.stackpos + 1 + ((ps.length : Int) + 1) ≤ 2147483600 := by
      simpa using hN
    have hroom : g.canGrow := by
      obtain ⟨hlen, hlo, hhi⟩ := hwf
      refine ⟨?_, ?_⟩
      · show g.stackpos + 1 ≤ 2147483647
        omega
      · intro hc
        show g.stacksize + 100 ≤ 2147483647
        omega
    obtain ⟨g1, e, h1, h2, h3, h4, h5, h6⟩ := push_apply_spec g hwf hroom p
    have hsz1 : g1.stacksize = 100 * ((g1.stackpos + 1 + 99) / 100) := by
      obtain ⟨hlen, hlo, hhi⟩ := hwf
      rw [h6, h3]
      split_ifs with hc <;> omega
    obtain ⟨g2, es, k1, k2, k3, k4, k5, k6⟩ := ih g1 h2 hsz1 (by rw [h3]; omega)
    refine ⟨g2, e :: es, ?_, k2, ?_, ?_, ?_, k6⟩
    · simp only [pushAll, h1]
      exact k1
    · rw [k3, h3]
      simp only [List.length_cons]
      push_cast
      omega
    · rw [k4, h4]
      simp
    · simp only [List.map_cons, h5, k5]

theorem popAll_spec (n : Nat) (g : Stack) (hwf : g.wf) (hn : n ≤ g.frames.length) :
    popAll n g = some (g.frames.reverse.take n, { g with stackpos := g.stackpos - n }) := by
  induction n generalizing g with
  | zero =>
    simp [popAll]
  | succ n ih =>
    have hfl := frames_length hwf
    obtain ⟨e, h1, h2, h3⟩ := top_pop_spec hwf (by omega)
    have hn1 : n ≤ (STACK_POP g).frames.length := by
      have := congrArg List.length h2
      simp only [List.length_append, List.length_singleton] at this
      omega
    simp only [popAll, h1, ih (STACK_POP g) h3 hn1]
    rw [h2]
    simp only [List.reverse_append, List.reverse_singleton, List.singleton_append,
      List.take_succ_cons, STACK_POP]
    congr 3
    push_cast
    omega


/-! ## Literals -/

theorem occursAt_iff (A S : List Nat) (k : Nat) :
    occursAt A S k ↔ ∀ i, i < A.length → S[k + i]? = A[i]? := by
  unfold occursAt
  constructor
  · intro h i hi
    have := congrArg (fun l : List Nat => l[i]?) h
    simp only [List.getElem?_take, if_pos hi, List.getElem?_drop] at this
    exact this
  · intro h
    apply List.ext_getElem?
    intro i
    rw [List.getElem?_take]
    by_cases hi : i < A.length
    · rw [if_pos hi, List.getElem?_drop]
      exact h i hi
    · rw [if_neg hi, List.getElem?_eq_none (by omega)]

theorem first_miss (A S : List Nat) (k : Nat) (h : ¬ occursAt A S k) :
    ∃ j, j < A.length ∧ (∀ i, i < j → S[k + i]? = A[i]?) ∧ S[k + j]? ≠ A[j]? := by
  rw [occursAt_iff] at h
  push_neg at h
  classical
  have hex : ∃ j, j < A.length ∧ S[k + j]? ≠ A[j]? := h
  refine ⟨Nat.find hex, (Nat.find_spec hex).1, ?_, (Nat.find_spec hex).2⟩
  intro i hi
  by_contra hne
  exact Nat.find_min hex hi ⟨lt_trans hi (Nat.find_spec hex).1, hne⟩

theorem step_char_hit {prog : List Instruction} {S rest : List Nat} {pc k c cap : Nat}
    {stk : Stack} (hi : prog[pc]? = some (mkChar c 0)) (hpc : pc < 4294967294)
    (hm : S[k]? = some c) :
    step prog (S ++ rest) S.length ⟨pc, k, cap, stk⟩ =
      .running ⟨pc + 1, (k : Int) + 1, cap, stk⟩ := by
  have hlt : k < S.length := by
    by_contra hge
    rw [List.getElem?_eq_none (by omega)] at hm
    cases hm
  have hne : (⟨pc, k, cap, stk⟩ : Config).pc ≠ FAIL := by
    show pc ≠ 4294967295
    omega
  rw [step_eq_dispatch hne hi, dispatch_char_hit _ _ _ _ rfl]
  · show Status.running ⟨succPc pc, (k : Int) + 1, cap, stk⟩ = _
    have : succPc pc = pc + 1 := by
      unfold succPc
      omega
    rw [this]
  · show (k : Int) < S.length
    omega
  · show readUnit (S ++ rest) (k : Int) = some c
    rw [readUnit_append_lt S rest k hlt, hm]

theorem step_char_miss {prog : List Instruction} {S rest : List Nat} {pc k c cap : Nat}
    {stk : Stack} (hi : prog[pc]? = some (mkChar c 0)) (hpc : pc < 4294967294)
    (hm : S[k]? ≠ some c) :
    step prog (S ++ rest) S.length ⟨pc, k, cap, stk⟩ = .running ⟨FAIL, k, cap, stk⟩ := by
  have hne : (⟨pc, k, cap, stk⟩ : Config).pc ≠ FAIL := by
    show pc ≠ 4294967295
    omega
  rw [step_eq_dispatch hne hi, dispatch_char_miss _ _ _ _ rfl rfl]
  intro hlt
  have hlt2 : k < S.length := by
    have : (k : Int) < S.length := hlt
    omega
  refine ⟨S[k], ?_, ?_⟩
  · show readUnit (S ++ rest) (k : Int) = some S[k]
    rw [readUnit_append_lt S rest k hlt2, List.getElem?_eq_getElem hlt2]
  · intro heq
    apply hm
    rw [List.getElem?_eq_getElem hlt2, heq]
    rfl

theorem exec_literal_prefix (prog : List Instruction) (S rest : List Nat) (l : List Nat)
    (pc0 k cap : Nat) (stk : Stack)
    (hprog : ∀ i c, l[i]? = some c → prog[pc0 + i]? = some (mkChar c 0))
    (hpc : pc0 + l.length < 4294967295) (j : Nat) (hj : j ≤ l.length)
    (hmatch : ∀ i, i < j → S[k + i]? = l[i]?) :
    exec prog (S ++ rest) S.length j ⟨pc0, k, cap, stk⟩ =
      .running ⟨pc0 + j, ((k + j : Nat) : Int), cap, stk⟩ := by
  induction j with
  | zero => rfl
  | succ j ih =>
    have hlj : l[j]? = some l[j] := List.getElem?_eq_getElem (by omega)
    rw [exec_add, ih (by omega) (fun i hi => hmatch i (by omega))]
    show exec prog (S ++ rest) S.length 1 ⟨pc0 + j, ((k + j : Nat) : Int), cap, stk⟩ = _
    rw [exec_step_running (step_char_hit (hprog j _ hlj) (by omega)
      ((hmatch j (by omega)).trans hlj))]
    show Status.running ⟨pc0 + j + 1, ((k + j : Nat) : Int) + 1, cap, stk⟩ = _
    push_cast
    rfl

theorem exec_literal_miss (prog : List Instruction) (S rest : List Nat) (l : List Nat)
    (pc0 k cap : Nat) (stk : Stack)
    (hprog : ∀ i c, l[i]? = some c → prog[pc0 + i]? = some (mkChar c 0))
    (hpc : pc0 + l.length < 4294967295) (j : Nat) (hj : j < l.length)
    (hmatch : ∀ i, i < j → S[k + i]? = l[i]?) (hmiss : S[k + j]? ≠ l[j]?) :
    exec prog (S ++ rest) S.length (j + 1) ⟨pc0, k, cap, stk⟩ =
      .running ⟨FAIL, ((k + j : Nat) : Int), cap, stk⟩ := by
  have hlj : l[j]? = some l[j] := List.getElem?_eq_getElem hj
  rw [exec_add, exec_literal_prefix prog S rest l pc0 k cap stk hprog hpc j (by omega) hmatch]
  show exec prog (S ++ rest) S.length 1 ⟨pc0 + j, ((k + j : Nat) : Int), cap, stk⟩ = _
  rw [exec_step_running (step_char_miss (hprog j _ hlj) (by omega) (by rwa [hlj] at hmiss))]
  rfl

theorem exec_trans {prog : List Instruction} {mem : List Nat} {endp : Int} {a b : Nat}
    {c c1 : Config} {s : Status} (h1 : exec prog mem endp a c = .running c1)
    (h2 : exec prog mem endp b c1 = s) : exec prog mem endp (a + b) c = s := by
  rw [exec_add, h1]
  exact h2

theorem exec_one {prog : List Instruction} {mem : List Nat} {endp : Int} {c : Config}
    {s : Status} (h : step prog mem endp c = s) : exec prog mem endp 1 c = s := by
  cases s with
  | running c1 => exact exec_step_running h 0
  | done o => exact exec_step_done h 0

theorem exec_running_le {prog : List Instruction} {mem : List Nat} {endp : Int} {n m : Nat}
    {c c1 : Config} (h : exec prog mem endp m c = .running c1) (hnm : n ≤ m) :
    ∃ c2, exec prog mem endp n c = .running c2 := by
  cases hx : exec prog mem endp n c with
  | running c2 => exact ⟨c2, rfl⟩
  | done o =>
    rw [exec_done_mono hx hnm] at h
    cases h

theorem pushalt_spec (g : Stack) (hwf : g.wf) (hroom : g.canGrow) (a : Nat) (p : Int)
    (c : Nat) :
    ∃ g1, STACK_PUSHALT g a p c = some g1 ∧ g1.wf ∧ g1.stackpos = g.stackpos + 1 ∧
      STACK_TOP g1 = some ⟨.BacktrackData, a, p, c⟩ ∧
      g1.frames = g.frames ++ [⟨.BacktrackData, a, p, c⟩] := by
  obtain ⟨g0, g1, cell, h0, h1, h2, h3, h4, h5, -⟩ := storeTop_push_spec g hwf hroom
    (fun _ => { entry_type := .BacktrackData, alternative := a, pos := p,
                capture_info := c })
  refine ⟨g1, ?_, h2, h3, h5, frames_push hwf h3 h4 h5⟩
  simp only [STACK_PUSHALT, h0]
  exact h1

theorem step_choice {prog : List Instruction} (mem : List Nat) (endp : Int) {pc : Nat}
    (pos : Int) (cap : Nat) {stk : Stack} {instr : Instruction}
    (hi : prog[pc]? = some instr) (hop : instr.instr = .iChoice) (hpc : pc < 4294967294)
    (hwf : stk.wf) (hroom : stk.canGrow) :
    ∃ g1, step prog mem endp ⟨pc, pos, cap, stk⟩ = .running ⟨pc + 1, pos, cap, g1⟩ ∧
      g1.wf ∧ g1.stackpos = stk.stackpos + 1 ∧
      STACK_TOP g1 = some ⟨.BacktrackData, addOffset pc instr.offset, pos - instr.count, cap⟩ ∧
      g1.frames = stk.frames ++
        [⟨.BacktrackData, addOffset pc instr.offset, pos - instr.count, cap⟩] := by
  obtain ⟨g1, h1, h2, h3, h4, h5⟩ :=
    pushalt_spec stk hwf hroom (addOffset pc instr.offset) (pos - instr.count) cap
  have hne : (⟨pc, pos, cap, stk⟩ : Config).pc ≠ FAIL := by
    show pc ≠ 4294967295
    omega
  refine ⟨g1, ?_, h2, h3, h4, h5⟩
  rw [step_eq_dispatch hne hi]
  have hs : succPc pc = pc + 1 := by
    unfold succPc
    omega
  simp only [dispatch, hop, h1, hs]

theorem popOverflows_of_ge {g : Stack} (h : -1 ≤ g.stackpos) : popOverflows g = false := by
  unfold popOverflows INT_MIN
  rw [decide_eq_false_iff_not]
  omega

theorem step_commit {prog : List Instruction} {mem : List Nat} {endp : Int} {pc : Nat}
    {pos : Int} {cap : Nat} {stk : Stack} (instr : Instruction)
    (hi : prog[pc]? = some instr) (hop : instr.instr = .iCommit) (hpc : pc ≠ FAIL)
    (hsp : popOverflows stk = false) :
    step prog mem endp ⟨pc, pos, cap, stk⟩ =
      .running ⟨addOffset pc instr.offset, pos, cap, STACK_POP stk⟩ := by
  rw [step_eq_dispatch hpc hi]
  simp [dispatch, hop, hsp]

theorem step_failtwice {prog : List Instruction} {mem : List Nat} {endp : Int} {pc : Nat}
    {pos : Int} {cap : Nat} {stk : Stack} (instr : Instruction)
    (hi : prog[pc]? = some instr) (hop : instr.instr = .iFailTwice) (hpc : pc ≠ FAIL)
    (hsp : popOverflows stk = false) :
    step prog mem endp ⟨pc, pos, cap, stk⟩ = .running ⟨FAIL, pos, cap, STACK_POP stk⟩ := by
  rw [step_eq_dispatch hpc hi]
  simp [dispatch, hop, hsp]

theorem step_end {prog : List Instruction} {mem : List Nat} {endp : Int} {pc : Nat}
    {pos : Int} {cap : Nat} {stk : Stack} {instr : Instruction}
    (hi : prog[pc]? = some instr) (hop : instr.instr = .iEnd) (hpc : pc ≠ FAIL) :
    step prog mem endp ⟨pc, pos, cap, stk⟩ = .done (.ret (.success pos) stk) := by
  rw [step_eq_dispatch hpc hi, dispatch_end _ _ _ _ hop]

theorem step_fail_backtrack (prog : List Instruction) (mem : List Nat) (endp : Int)
    {pos : Int} {cap : Nat} {stk : Stack} {e : StackEntry}
    (hne : stk.stackpos ≠ -1) (htop : STACK_TOP stk = some e)
    (htag : e.entry_type = .BacktrackData) :
    step prog mem endp ⟨FAIL, pos, cap, stk⟩ =
      .running ⟨e.alternative, e.pos, e.capture_info, STACK_POP stk⟩ := by
  simp [step, failStep, STACK_EMPTY, hne, htop, htag]

theorem step_fail_return (prog : List Instruction) (mem : List Nat) (endp : Int)
    {pos : Int} {cap : Nat} {stk : Stack} {e : StackEntry}
    (hne : stk.stackpos ≠ -1) (htop : STACK_TOP stk = some e)
    (htag : e.entry_type = .ReturnData) :
    step prog mem endp ⟨FAIL, pos, cap, stk⟩ = .running ⟨FAIL, pos, cap, STACK_POP stk⟩ := by
  simp [step, failStep, STACK_EMPTY, hne, htop, htag]

theorem getElem?_literal {l : List Nat} {i c : Nat} (h : l[i]? = some c) :
    (literal l)[i]? = some (mkChar c 0) := by
  unfold literal
  rw [List.getElem?_map, h]
  rfl

theorem length_literal (l : List Nat) : (literal l).length = l.length := by
  unfold literal
  rw [List.length_map]

theorem wf_initial : Stack.initial.wf := by
  refine ⟨rfl, ?_, ?_⟩ <;> decide

/-! ## Ordered choice -/

theorem choiceProg_zero (A B : List Nat) :
    (choiceProg A B)[0]? = some (mkChoice (A.length + 2) 0) := by
  unfold choiceProg
  rw [List.getElem?_cons_zero]

theorem choiceProg_A (A B : List Nat) (i c : Nat) (h : A[i]? = some c) :
    (choiceProg A B)[1 + i]? = some (mkChar c 0) := by
  have hi : i < (literal A).length := by
    rw [length_literal]
    by_contra hge
    rw [List.getElem?_eq_none (by omega)] at h
    cases h
  unfold choiceProg
  rw [Nat.add_comm, List.getElem?_cons_succ, List.getElem?_append_left hi]
  exact getElem?_literal h

theorem choiceProg_commit (A B : List Nat) :
    (choiceProg A B)[A.length + 1]? = some (mkCommit (B.length + 1)) := by
  unfold choiceProg
  rw [List.getElem?_cons_succ, List.getElem?_append_right (by rw [length_literal]),
    length_literal, Nat.sub_self, List.getElem?_cons_zero]

theorem choiceProg_B (A B : List Nat) (i c : Nat) (h : B[i]? = some c) :
    (choiceProg A B)[A.length + 2 + i]? = some (mkChar c 0) := by
  have hi : i < (literal B).length := by
    rw [length_literal]
    by_contra hge
    rw [List.getElem?_eq_none (by omega)] at h
    cases h
  unfold choiceProg
  have e1 : A.length + 2 + i = (A.length + 1 + i) + 1 := by omega
  rw [e1, List.getElem?_cons_succ,
    List.getElem?_append_right (by rw [length_literal]; omega), length_literal]
  have e2 : A.length + 1 + i - A.length = i + 1 := by omega
  rw [e2, List.getElem?_cons_succ, List.getElem?_append_left hi]
  exact getElem?_literal h

theorem choiceProg_end (A B : List Nat) :
    (choiceProg A B)[A.length + B.length + 2]? = some mkEnd := by
  unfold choiceProg
  have e1 : A.length + B.length + 2 = (A.length + B.length + 1) + 1 := by omega
  rw [e1, List.getElem?_cons_succ,
    List.getElem?_append_right (by rw [length_literal]; omega), length_literal]
  have e2 : A.length + B.length + 1 - A.length = B.length + 1 := by omega
  rw [e2, List.getElem?_cons_succ,
    List.getElem?_append_right (by rw [length_literal]), length_literal, Nat.sub_self, List.getElem?_cons_zero]

/-! ## Negative lookahead -/

theorem notProg_zero (inner : List Nat) :
    (notProg inner)[0]? = some (mkChoice (inner.length + 2) 0) := by
  unfold notProg
  rw [List.getElem?_cons_zero]

theorem notProg_inner (inner : List Nat) (i c : Nat) (h : inner[i]? = some c) :
    (notProg inner)[1 + i]? = some (mkChar c 0) := by
  have hi : i < (literal inner).length := by
    rw [length_literal]
    by_contra hge
    rw [List.getElem?_eq_none (by omega)] at h
    cases h
  unfold notProg
  rw [Nat.add_comm, List.getElem?_cons_succ, List.getElem?_append_left hi]
  exact getElem?_literal h

theorem notProg_failtwice (inner : List Nat) :
    (notProg inner)[inner.length + 1]? = some mkFailTwice := by
  unfold notProg
  rw [List.getElem?_cons_succ, List.getElem?_append_right (by rw [length_literal]),
    length_literal, Nat.sub_self, List.getElem?_cons_zero]

theorem notProg_end (inner : List Nat) :
    (notProg inner)[inner.length + 2]? = some mkEnd := by
  unfold notProg
  rw [List.getElem?_cons_succ,
    List.getElem?_append_right (by rw [length_literal]; omega), length_literal]
  have e2 : inner.length + 1 - inner.length = 0 + 1 := by omega
  rw [e2, List.getElem?_cons_succ, List.getElem?_cons_zero]

/-! ## Failure recovery -/

theorem top_of_frames {g : Stack} {xs : List StackEntry} {e : StackEntry} (hwf : g.wf)
    (hfr : g.frames = xs ++ [e]) :
    g.stackpos ≠ -1 ∧ STACK_TOP g = some e ∧ (STACK_POP g).wf ∧ (STACK_POP g).frames = xs := by
  have hlen := frames_length hwf
  rw [hfr, List.length_append, List.length_singleton] at hlen
  have hnn : 0 ≤ g.stackpos := by
    push_cast at hlen
    omega
  obtain ⟨e1, h1, h2, h3⟩ := top_pop_spec hwf hnn
  rw [hfr] at h2
  obtain ⟨hxs, he⟩ := List.append_inj' h2 rfl
  have he1 : e = e1 := by
    simpa using he
  exact ⟨by omega, by rw [h1, he1], h3, hxs.symm⟩

theorem exec_fail_returns (prog : List Instruction) (mem : List Nat) (endp : Int) (pos : Int)
    (cap : Nat) (n : Nat) :
    ∀ (g : Stack) (below rets : List StackEntry), g.wf → g.frames = below ++ rets →
      rets.length = n → (∀ r ∈ rets, r.entry_type = .ReturnData) →
      exec prog mem endp n ⟨FAIL, pos, cap, g⟩ =
          .running ⟨FAIL, pos, cap, { g with stackpos := g.stackpos - n }⟩ ∧
        ({ g with stackpos := g.stackpos - n } : Stack).wf ∧
        ({ g with stackpos := g.stackpos - n } : Stack).frames = below := by
  induction n with
  | zero =>
    intro g below rets hwf hfr hlen _
    have hr : rets = [] := List.eq_nil_of_length_eq_zero hlen
    have hg : ({ g with stackpos := g.stackpos - (0 : Nat) } : Stack) = g := by
      simp
    rw [hg]
    exact ⟨rfl, hwf, by rw [hfr, hr, List.append_nil]⟩
  | succ n ih =>
    intro g below rets hwf hfr hlen hret
    have hne : rets ≠ [] := by
      intro h
      rw [h] at hlen
      cases hlen
    obtain ⟨rs, r, hrs⟩ : ∃ rs r, rets = rs ++ [r] :=
      ⟨rets.dropLast, rets.getLast hne, (List.dropLast_append_getLast hne).symm⟩
    subst hrs
    rw [← List.append_assoc] at hfr
    obtain ⟨h1, h2, h3, h4⟩ := top_of_frames hwf hfr
    have hrl : rs.length = n := by
      rw [List.length_append, List.length_singleton] at hlen
      omega
    obtain ⟨k1, k2, k3⟩ := ih (STACK_POP g) below rs h3 h4 hrl
      (fun x hx => hret x (List.mem_append_left _ hx))
    have hstep : step prog mem endp ⟨FAIL, pos, cap, g⟩ =
        .running ⟨FAIL, pos, cap, STACK_POP g⟩ :=
      step_fail_return prog mem endp h1 h2 (hret r (by simp))
    have hg : ({ g with stackpos := g.stackpos - ((n + 1 : Nat) : Int) } : Stack) =
        { STACK_POP g with stackpos := (STACK_POP g).stackpos - (n : Int) } := by
      show _ = ({ stack := g.stack, stackpos := g.stackpos - 1 - n,
                  stacksize := g.stacksize } : Stack)
      congr 1
      push_cast
      omega
    rw [hg]
    refine ⟨?_, k2, k3⟩
    rw [Nat.add_comm n 1]
    exact exec_trans (exec_one hstep) k1

/-! ## Reading the top of the stack -/

theorem STACK_TOP_nonneg {g : Stack} {e : StackEntry} (h : STACK_TOP g = some e) :
    0 ≤ g.stackpos := by
  unfold STACK_TOP at h
  by_contra hneg
  rw [if_neg hneg] at h
  cases h

theorem offsetOrFail_stk {instr : Instruction} {c c1 : Config}
    (h : offsetOrFail instr c = .running c1) : c1.stk = c.stk ∧ c1.pos = c.pos := by
  unfold offsetOrFail at h
  split at h <;>
  · simp only [Status.running.injEq] at h
    subst h
    exact ⟨rfl, rfl⟩

theorem Stack_Ensure_stackpos {g g0 : Stack} (h : Stack_Ensure g = some g0) :
    g0.stackpos = g.stackpos := by
  unfold Stack_Ensure at h
  split at h
  · cases h
  · split at h
    · split at h
      · cases h
      · simp only [Option.some.injEq] at h
        subst h
        rfl
    · simp only [Option.some.injEq] at h
      subst h
      rfl

/-! ## Saved positions -/

theorem savedPosFrom_pop {t : Int} {g : Stack} (h : savedPosFrom t g) :
    savedPosFrom t (STACK_POP g) := by
  intro i e hi he hb
  have hi2 : (i : Int) ≤ g.stackpos - 1 := hi
  exact h i e (by omega) he hb

theorem savedPosFrom_top {t : Int} {g : Stack} {e : StackEntry} (h : savedPosFrom t g)
    (htop : STACK_TOP g = some e) (hb : e.entry_type = .BacktrackData) : t ≤ e.pos := by
  have hnn := STACK_TOP_nonneg htop
  unfold STACK_TOP at htop
  rw [if_pos hnn] at htop
  exact h g.stackpos.toNat e (by omega) htop hb

theorem realloc_getElem? {cells : List StackEntry} {n : Int} {i : Nat} {e : StackEntry}
    (h : (realloc cells n)[i]? = some e) : cells[i]? = some e ∨ e = freshEntry := by
  unfold realloc at h
  by_cases hi : i < (cells.take n.toNat).length
  · rw [List.getElem?_append_left hi, List.getElem?_take] at h
    split at h
    · exact Or.inl h
    · cases h
  · rw [List.getElem?_append_right (by omega)] at h
    right
    have := List.getElem?_replicate (a := freshEntry) (n := n.toNat - cells.length)
      (m := i - (cells.take n.toNat).length)
    rw [this] at h
    split at h
    · simpa using h.symm
    · cases h

theorem savedPosFrom_ensure {t : Int} {g g0 : Stack} (h : savedPosFrom t g)
    (h0 : Stack_Ensure g = some g0) : savedPosFrom t g0 := by
  have hsp := Stack_Ensure_stackpos h0
  unfold Stack_Ensure at h0
  split at h0
  · cases h0
  · split at h0
    · split at h0
      · cases h0
      · simp only [Option.some.injEq] at h0
        subst h0
        intro i e hi he hb
        have he2 : (realloc g.stack (g.stacksize + STACK_CHUNK))[i]? = some e := he
        rcases realloc_getElem? he2 with h1 | h1
        · exact h i e hi h1 hb
        · rw [h1] at hb
          cases hb
    · simp only [Option.some.injEq] at h0
      subst h0
      exact h

theorem savedPosFrom_storeTop {t : Int} {g g1 : Stack} {f : StackEntry → StackEntry}
    (h : ∀ (i : Nat) (e : StackEntry), (i : Int) < g.stackpos → g.stack[i]? = some e →
      e.entry_type = .BacktrackData → t ≤ e.pos)
    (hs : storeTop g f = some g1)
    (hf : ∀ cell, (f cell).entry_type = .BacktrackData → t ≤ (f cell).pos) :
    savedPosFrom t g1 := by
  unfold storeTop at hs
  cases ht : STACK_TOP g with
  | none => rw [ht] at hs; cases hs
  | some e0 =>
    rw [ht] at hs
    simp only [Option.some.injEq] at hs
    subst hs
    have hnn := STACK_TOP_nonneg ht
    intro i e hi he hb
    have hi2 : (i : Int) ≤ g.stackpos := hi
    have he2 : (g.stack.set g.stackpos.toNat (f e0))[i]? = some e := he
    by_cases hidx : g.stackpos.toNat = i
    · rw [hidx, List.getElem?_set] at he2
      split at he2
      · split at he2
        · simp only [Option.some.injEq] at he2
          subst he2
          exact hf e0 hb
        · cases he2
      · rename_i hne
        exact absurd rfl hne
    · rw [List.getElem?_set_ne hidx] at he2
      exact h i e (by omega) he2 hb

theorem savedPosFrom_pushret {t : Int} {g g1 : Stack} {r : Nat} (h : savedPosFrom t g)
    (hp : STACK_PUSHRET g r = some g1) : savedPosFrom t g1 := by
  unfold STACK_PUSHRET at hp
  cases h0 : Stack_Ensure g with
  | none => rw [h0] at hp; cases hp
  | some g0 =>
    rw [h0] at hp
    have hsp := Stack_Ensure_stackpos h0
    refine savedPosFrom_storeTop ?_ hp ?_
    · intro i e hi he hb
      have hi2 : (i : Int) < g0.stackpos + 1 := hi
      exact savedPosFrom_ensure h h0 i e (by omega) he hb
    · intro cell hb
      cases hb

theorem savedPosFrom_pushalt {t : Int} {g g1 : Stack} {a : Nat} {p : Int} {c : Nat}
    (h : savedPosFrom t g) (hp : STACK_PUSHALT g a p c = some g1) (hpos : t ≤ p) :
    savedPosFrom t g1 := by
  unfold STACK_PUSHALT at hp
  cases h0 : Stack_Ensure g with
  | none => rw [h0] at hp; cases hp
  | some g0 =>
    rw [h0] at hp
    have hsp := Stack_Ensure_stackpos h0
    refine savedPosFrom_storeTop ?_ hp ?_
    · intro i e hi he hb
      have hi2 : (i : Int) < g0.stackpos + 1 := hi
      exact savedPosFrom_ensure h h0 i e (by omega) he hb
    · intro cell _
      exact hpos

theorem dispatch_savedPos {instr : Instruction} {mem : List Nat} {endp t : Int} {c c1 : Config}
    (hlb : instr.instr = .iChoice → instr.count = 0) (hpos : t ≤ c.pos)
    (hinv : savedPosFrom t c.stk) (h : dispatch instr mem endp c = .running c1) :
    t ≤ c1.pos ∧ savedPosFrom t c1.stk := by
  unfold dispatch at h
  split at h
  · cases h
  · simp only [Status.running.injEq] at h
    subst h
    exact ⟨hpos, hinv⟩
  · split at h
    · cases h
    · rename_i g hg
      simp only [Status.running.injEq] at h
      subst h
      exact ⟨hpos, savedPosFrom_pushret hinv hg⟩
  · split at h
    · cases h
    · simp only [Status.running.injEq] at h
      subst h
      exact ⟨hpos, savedPosFrom_pop hinv⟩
  · split at h
    · cases h
    · simp only [Status.running.injEq] at h
      subst h
      exact ⟨hpos, savedPosFrom_pop hinv⟩
  · rename_i hop
    split at h
    · cases h
    · rename_i g hg
      simp only [Status.running.injEq] at h
      subst h
      refine ⟨hpos, savedPosFrom_pushalt hinv hg ?_⟩
      rw [hlb hop]
      simp only [Nat.cast_zero, sub_zero]
      exact hpos
  · split at h
    · cases h
    · split at h
      · cases h
      · rename_i g hg
        simp only [Status.running.injEq] at h
        subst h
        refine ⟨hpos, savedPosFrom_storeTop (fun i e hi => hinv i e (by omega)) hg ?_⟩
        intro cell _
        exact hpos
    · cases h
  · split at h
    · cases h
    · rename_i e he
      split at h
      · rename_i hb
        simp only [Status.running.injEq] at h
        subst h
        exact ⟨savedPosFrom_top hinv he hb, savedPosFrom_pop hinv⟩
      · cases h
  · simp only [Status.running.injEq] at h
    subst h
    exact ⟨hpos, hinv⟩
  · split at h
    · cases h
    · simp only [Status.running.injEq] at h
      subst h
      exact ⟨hpos, savedPosFrom_pop hinv⟩
  · simp only [Status.running.injEq] at h
    subst h
    exact ⟨hpos, hinv⟩
  · split at h
    · simp only [Status.running.injEq] at h
      subst h
      refine ⟨?_, hinv⟩
      show t ≤ c.pos + (instr.count : Int)
      omega
    · obtain ⟨h1, h2⟩ := offsetOrFail_stk h
      rw [h1, h2]
      exact ⟨hpos, hinv⟩
  · split at h
    · split at h
      · cases h
      · split at h
        · simp only [Status.running.injEq] at h
          subst h
          refine ⟨?_, hinv⟩
          show t ≤ c.pos + 1
          omega
        · obtain ⟨h1, h2⟩ := offsetOrFail_stk h
          rw [h1, h2]
          exact ⟨hpos, hinv⟩
    · obtain ⟨h1, h2⟩ := offsetOrFail_stk h
      rw [h1, h2]
      exact ⟨hpos, hinv⟩
  · split at h
    · cases h
    · split at h
      · cases h
      · simp only [Status.running.injEq] at h
        subst h
        refine ⟨?_, hinv⟩
        show t ≤ c.pos + 1
        omega
      · obtain ⟨h1, h2⟩ := offsetOrFail_stk h
        rw [h1, h2]
        exact ⟨hpos, hinv⟩
  · split at h
    · cases h
    · split at h
      · cases h
      · simp only [Status.running.injEq] at h
        subst h
        refine ⟨?_, hinv⟩
        show t ≤ c.pos + 1
        omega
      · simp only [Status.running.injEq] at h
        subst h
        exact ⟨hpos, hinv⟩
  · simp only [Status.running.injEq] at h
    subst h
    exact ⟨hpos, hinv⟩

theorem dispatch_success {instr : Instruction} {mem : List Nat} {endp : Int} {c : Config}
    {e : Int} {s : Stack} (h : dispatch instr mem endp c = .done (.ret (.success e) s)) :
    e = c.pos := by
  unfold dispatch at h
  split at h
  · simp only [Status.done.injEq, Outcome.ret.injEq, Result.success.injEq] at h
    exact h.1.symm
  all_goals
    try unfold offsetOrFail at h
    repeat' split at h
    all_goals cases h

theorem failStep_savedPos {t : Int} {c c1 : Config} (hinv : savedPosFrom t c.stk)
    (hpos : t ≤ c.pos) (h : failStep c = .running c1) :
    t ≤ c1.pos ∧ savedPosFrom t c1.stk := by
  unfold failStep at h
  split at h
  · cases h
  · split at h
    · cases h
    · rename_i e he
      split at h
      · rename_i hb
        simp only [Status.running.injEq] at h
        subst h
        exact ⟨savedPosFrom_top hinv he hb, savedPosFrom_pop hinv⟩
      · simp only [Status.running.injEq] at h
        subst h
        exact ⟨hpos, savedPosFrom_pop hinv⟩

theorem failStep_not_success {c : Config} {e : Int} {s : Stack}
    (h : failStep c = .done (.ret (.success e) s)) : False := by
  unfold failStep at h
  repeat' split at h
  all_goals cases h

theorem exec_savedPos {prog : List Instruction} {mem : List Nat} {endp t : Int}
    (hlb : ∀ i ∈ prog, i.instr = .iChoice → i.count = 0) (n : Nat) :
    ∀ c : Config, t ≤ c.pos → savedPosFrom t c.stk → ∀ e s,
      exec prog mem endp n c = .done (.ret (.success e) s) → t ≤ e := by
  induction n with
  | zero =>
    intro c _ _ e s h
    cases h
  | succ n ih =>
    intro c hpos hinv e s h
    simp only [exec] at h
    cases hs : step prog mem endp c with
    | running c1 =>
      rw [hs] at h
      have h1 : exec prog mem endp n c1 = .done (.ret (.success e) s) := h
      unfold step at hs
      by_cases hpc : c.pc = FAIL
      · rw [if_pos hpc] at hs
        obtain ⟨k1, k2⟩ := failStep_savedPos hinv hpos hs
        exact ih c1 k1 k2 e s h1
      · rw [if_neg hpc] at hs
        cases hi : prog[c.pc]? with
        | none => rw [hi] at hs; cases hs
        | some instr =>
          rw [hi] at hs
          obtain ⟨k1, k2⟩ := dispatch_savedPos (hlb instr (List.getElem?_mem hi)) hpos hinv hs
          exact ih c1 k1 k2 e s h1
    | done o =>
      rw [hs] at h
      have h1 : o = .ret (.success e) s := by
        simpa using h
      subst h1
      unfold step at hs
      by_cases hpc : c.pc = FAIL
      · rw [if_pos hpc] at hs
        exact absurd hs (fun h2 => failStep_not_success h2)
      · rw [if_neg hpc] at hs
        cases hi : prog[c.pc]? with
        | none => rw [hi] at hs; cases hs
        | some instr =>
          rw [hi] at hs
          rw [dispatch_success hs]
          exact hpos

/-! ## Remaining opcodes -/

theorem step_default {prog : List Instruction} {mem : List Nat} {endp : Int} {c : Config}
    (instr : Instruction) (hpc : c.pc ≠ FAIL) (hi : prog[c.pc]? = some instr)
    (hop : instr.instr = .iOpenCall ∨ ∃ n, instr.instr = .other n) :
    step prog mem endp c = .running { c with pc := succPc c.pc } := by
  rw [step_eq_dispatch hpc hi]
  rcases hop with hop | ⟨n, hop⟩
  · simp only [dispatch, hop]
  · simp only [dispatch, hop]

theorem step_any {prog : List Instruction} {mem : List Nat} {endp : Int} {c : Config}
    (instr : Instruction) (hpc : c.pc ≠ FAIL) (hi : prog[c.pc]? = some instr)
    (hop : instr.instr = .iAny) :
    step prog mem endp c =
      if (instr.count : Int) ≤ endp - c.pos then
        .running { c with pc := succPc c.pc, pos := c.pos + instr.count }
      else if instr.offset ≠ 0 then .running { c with pc := addOffset c.pc instr.offset }
      else .running { c with pc := FAIL } := by
  rw [step_eq_dispatch hpc hi]
  simp only [dispatch, hop, offsetOrFail]

theorem dispatch_not_noMatch {instr : Instruction} {mem : List Nat} {endp : Int} {c : Config}
    {s : Stack} (h : dispatch instr mem endp c = .done (.ret .noMatch s)) : False := by
  unfold dispatch at h
  split at h
  all_goals
    try unfold offsetOrFail at h
    repeat' split at h
    all_goals cases h

theorem failStep_noMatch {c : Config} {s : Stack}
    (h : failStep c = .done (.ret .noMatch s)) : s.stackpos = -1 := by
  unfold failStep at h
  split at h
  · rename_i he
    simp only [Status.done.injEq, Outcome.ret.injEq, true_and] at h
    subst h
    simpa [STACK_EMPTY] using he
  · repeat' split at h
    all_goals cases h

theorem exec_noMatch {prog : List Instruction} {mem : List Nat} {endp : Int} (n : Nat) :
    ∀ (c : Config) (s : Stack), exec prog mem endp n c = .done (.ret .noMatch s) →
      s.stackpos = -1 := by
  induction n with
  | zero =>
    intro c s h
    cases h
  | succ n ih =>
    intro c s h
    simp only [exec] at h
    cases hs : step prog mem endp c with
    | running c1 =>
      rw [hs] at h
      exact ih c1 s h
    | done o =>
      rw [hs] at h
      have h1 : o = .ret .noMatch s := by
        simpa using h
      subst h1
      unfold step at hs
      by_cases hpc : c.pc = FAIL
      · rw [if_pos hpc] at hs
        exact failStep_noMatch hs
      · rw [if_neg hpc] at hs
        cases hi : prog[c.pc]? with
        | none => rw [hi] at hs; cases hs
        | some instr =>
          rw [hi] at hs
          exact absurd hs (fun h2 => dispatch_not_noMatch h2)

theorem storeTop_spec {g : Stack} {lower : List StackEntry} {e : StackEntry} (hwf : g.wf)
    (hfr : g.frames = lower ++ [e]) (f : StackEntry → StackEntry) :
    ∃ g1, storeTop g f = some g1 ∧ g1.wf ∧ g1.stackpos = g.stackpos ∧
      g1.stacksize = g.stacksize ∧ g1.frames = lower ++ [f e] ∧
      STACK_TOP g1 = some (f e) := by
  obtain ⟨hne, htop, hpwf, hpfr⟩ := top_of_frames hwf hfr
  have hnn := STACK_TOP_nonneg htop
  obtain ⟨hlen, hlo, hhi⟩ := hwf
  have hidx : g.stackpos.toNat < g.stack.length := by omega
  have htop1 : STACK_TOP ({ g with stack := g.stack.set g.stackpos.toNat (f e) } : Stack) =
      some (f e) := by
    simp only [STACK_TOP, hnn, if_true]
    rw [List.getElem?_set_self hidx]
  have hwf1 : ({ g with stack := g.stack.set g.stackpos.toNat (f e) } : Stack).wf := by
    refine ⟨?_, hlo, hhi⟩
    simp only [List.length_set]
    exact hlen
  refine ⟨{ g with stack := g.stack.set g.stackpos.toNat (f e) }, ?_, hwf1, rfl, rfl, ?_,
    htop1⟩
  · simp only [storeTop, htop]
  · rw [← hpfr]
    refine frames_push hpwf ?_ ?_ htop1
    · show g.stackpos = g.stackpos - 1 + 1
      omega
    · intro i hi
      have hi2 : (i : Int) ≤ g.stackpos - 1 := hi
      show (g.stack.set g.stackpos.toNat (f e))[i]? = g.stack[i]?
      rw [List.getElem?_set_ne (by omega)]

theorem step_partialcommit {prog : List Instruction} {mem : List Nat} {endp : Int}
    {c : Config} (instr : Instruction) {lower : List StackEntry} {e : StackEntry}
    (hpc : c.pc ≠ FAIL) (hi : prog[c.pc]? = some instr) (hop : instr.instr = .iPartialCommit)
    (hwf : c.stk.wf) (hfr : c.stk.frames = lower ++ [e])
    (htag : e.entry_type = .BacktrackData) :
    ∃ g1, step prog mem endp c =
        .running ⟨addOffset c.pc instr.offset, c.pos, c.capture, g1⟩ ∧
      g1.wf ∧ g1.stackpos = c.stk.stackpos ∧ g1.stacksize = c.stk.stacksize ∧
      g1.frames = lower ++ [{ e with pos := c.pos, capture_info := c.capture }] ∧
      STACK_TOP g1 = some { e with pos := c.pos, capture_info := c.capture } := by
  obtain ⟨_, htop, _, _⟩ := top_of_frames hwf hfr
  obtain ⟨g1, h1, h2, h3, h4, h5, h6⟩ := storeTop_spec hwf hfr
    (fun x => { x with pos := c.pos, capture_info := c.capture })
  refine ⟨g1, ?_, h2, h3, h4, h5, h6⟩
  rw [step_eq_dispatch hpc hi]
  simp only [dispatch, hop, STACK_TOPTYPE, htop, Option.map_some', htag, h1]

/-! ## And-predicate and calls -/

theorem step_backcommit {prog : List Instruction} {mem : List Nat} {endp : Int} {pc : Nat}
    {pos : Int} {cap : Nat} {stk : Stack} (instr : Instruction) {e : StackEntry}
    (hi : prog[pc]? = some instr) (hop : instr.instr = .iBackCommit) (hpc : pc ≠ FAIL)
    (htop : STACK_TOP stk = some e) (htag : e.entry_type = .BacktrackData) :
    step prog mem endp ⟨pc, pos, cap, stk⟩ =
      .running ⟨addOffset pc instr.offset, e.pos, e.capture_info, STACK_POP stk⟩ := by
  rw [step_eq_dispatch hpc hi]
  simp only [dispatch, hop, htop, htag]

theorem step_fail_instr {prog : List Instruction} {mem : List Nat} {endp : Int} {pc : Nat}
    {pos : Int} {cap : Nat} {stk : Stack} (instr : Instruction)
    (hi : prog[pc]? = some instr) (hop : instr.instr = .iFail) (hpc : pc ≠ FAIL) :
    step prog mem endp ⟨pc, pos, cap, stk⟩ = .running ⟨FAIL, pos, cap, stk⟩ := by
  rw [step_eq_dispatch hpc hi]
  simp only [dispatch, hop]

theorem pushret_spec (g : Stack) (hwf : g.wf) (hroom : g.canGrow) (r : Nat) :
    ∃ g1 e, STACK_PUSHRET g r = some g1 ∧ g1.wf ∧ g1.stackpos = g.stackpos + 1 ∧
      STACK_TOP g1 = some e ∧ e.entry_type = .ReturnData ∧ e.ret = r ∧
      g1.frames = g.frames ++ [e] := by
  obtain ⟨g0, g1, cell, h0, h1, h2, h3, h4, h5, -⟩ := storeTop_push_spec g hwf hroom
    (fun e => { e with entry_type := .ReturnData, alternative := r })
  refine ⟨g1, _, ?_, h2, h3, h5, rfl, rfl, frames_push hwf h3 h4 h5⟩
  simp only [STACK_PUSHRET, h0]
  exact h1

theorem step_call {prog : List Instruction} (mem : List Nat) (endp : Int) {pc : Nat}
    (pos : Int) (cap : Nat) {stk : Stack} {instr : Instruction}
    (hi : prog[pc]? = some instr) (hop : instr.instr = .iCall) (hpc : pc < 4294967294)
    (hwf : stk.wf) (hroom : stk.canGrow) :
    ∃ g1 e, step prog mem endp ⟨pc, pos, cap, stk⟩ =
        .running ⟨addOffset pc instr.offset, pos, cap, g1⟩ ∧
      g1.wf ∧ g1.stackpos = stk.stackpos + 1 ∧ STACK_TOP g1 = some e ∧
      e.entry_type = .ReturnData ∧ e.ret = pc + 1 ∧ g1.frames = stk.frames ++ [e] := by
  have hs : succPc pc = pc + 1 := by
    unfold succPc
    omega
  obtain ⟨g1, e, h1, h2, h3, h4, h5, h6, h7⟩ := pushret_spec stk hwf hroom (succPc pc)
  have hne : (⟨pc, pos, cap, stk⟩ : Config).pc ≠ FAIL := by
    show pc ≠ 4294967295
    omega
  refine ⟨g1, e, ?_, h2, h3, h4, h5, by rw [h6, hs], h7⟩
  rw [step_eq_dispatch hne hi]
  simp only [dispatch, hop, h1]

theorem step_return {prog : List Instruction} {mem : List Nat} {endp : Int} {pc : Nat}
    {pos : Int} {cap : Nat} {stk : Stack} (instr : Instruction) {e : StackEntry}
    (hi : prog[pc]? = some instr) (hop : instr.instr = .iReturn) (hpc : pc ≠ FAIL)
    (htop : STACK_TOP stk = some e) :
    step prog mem endp ⟨pc, pos, cap, stk⟩ = .running ⟨e.ret, pos, cap, STACK_POP stk⟩ := by
  rw [step_eq_dispatch hpc hi]
  simp only [dispatch, hop, htop]

theorem mem_literal_index {l : List Nat} {i c : Nat} (h : l[i]? = some c) :
    i < (literal l).length := by
  rw [length_literal]
  by_contra hge
  rw [List.getElem?_eq_none (by omega)] at h
  cases h

theorem andProg_zero (inner : List Nat) :
    (andProg inner)[0]? = some (mkChoice (inner.length + 2) 0) := by
  unfold andProg
  rw [List.getElem?_cons_zero]

theorem andProg_inner (inner : List Nat) (i c : Nat) (h : inner[i]? = some c) :
    (andProg inner)[1 + i]? = some (mkChar c 0) := by
  unfold andProg
  rw [Nat.add_comm, List.getElem?_cons_succ, List.getElem?_append_left (mem_literal_index h)]
  exact getElem?_literal h

theorem andProg_tail (inner : List Nat) (j : Nat) :
    (andProg inner)[inner.length + 1 + j]? = [mkBackCommit 2, mkFail, mkEnd][j]? := by
  unfold andProg
  have e1 : inner.length + 1 + j = (inner.length + j) + 1 := by omega
  rw [e1, List.getElem?_cons_succ,
    List.getElem?_append_right (by rw [length_literal]; omega), length_literal]
  congr 1
  omega

theorem callProg_zero (body : List Nat) : (callProg body)[0]? = some (mkCall 2) := by
  unfold callProg
  rw [List.getElem?_cons_zero]

theorem callProg_one (body : List Nat) : (callProg body)[1]? = some mkEnd := by
  unfold callProg
  rw [List.getElem?_cons_succ, List.getElem?_cons_zero]

theorem callProg_body (body : List Nat) (i c : Nat) (h : body[i]? = some c) :
    (callProg body)[2 + i]? = some (mkChar c 0) := by
  unfold callProg
  have e1 : 2 + i = (i + 1) + 1 := by omega
  rw [e1, List.getElem?_cons_succ, List.getElem?_cons_succ,
    List.getElem?_append_left (mem_literal_index h)]
  exact getElem?_literal h

theorem callProg_return (body : List Nat) :
    (callProg body)[body.length + 2]? = some mkReturn := by
  unfold callProg
  rw [List.getElem?_cons_succ, List.getElem?_cons_succ,
    List.getElem?_append_right (by rw [length_literal]), length_literal, Nat.sub_self,
    List.getElem?_cons_zero]

theorem inlineProg_body (body : List Nat) (i c : Nat) (h : body[i]? = some c) :
    (inlineProg body)[0 + i]? = some (mkChar c 0) := by
  unfold inlineProg
  rw [Nat.zero_add, List.getElem?_append_left (mem_literal_index h)]
  exact getElem?_literal h

theorem inlineProg_end (body : List Nat) :
    (inlineProg body)[body.length]? = some mkEnd := by
  unfold inlineProg
  rw [List.getElem?_append_right (by rw [length_literal]), length_literal, Nat.sub_self,
    List.getElem?_cons_zero]

/-! ## Greedy repetition -/

theorem frames_empty {g : Stack} (h : g.stackpos = -1) : g.frames = [] := by
  unfold Stack.frames
  rw [h]
  rfl

theorem star_loop (c : Nat) (S rest : List Nat) (d : Nat) :
    ∀ (p : Nat) (g : Stack), p + d = S.length → g.wf →
      g.frames = [⟨.BacktrackData, 3, (p : Int), 0⟩] →
      ∃ q g1, p ≤ q ∧ q ≤ S.length ∧ (∀ i, p ≤ i → i < q → S[i]? = some c) ∧
        S[q]? ≠ some c ∧ g1.stackpos = -1 ∧
        exec (starProg c) (S ++ rest) S.length (2 * (q - p) + 3) ⟨1, p, 0, g⟩ =
          .done (.ret (.success q) g1) ∧
        ∀ n cfg, exec (starProg c) (S ++ rest) S.length n ⟨1, p, 0, g⟩ = .running cfg →
          cfg.stk.stackpos ≤ 0 := by
  induction d with
  | zero =>
    intro p g hp hwf hfr
    have hfr2 : g.frames = [] ++ [⟨.BacktrackData, 3, (p : Int), 0⟩] := hfr
    obtain ⟨hne, htop, hpwf, hpfr⟩ := top_of_frames hwf hfr2
    have hlen := frames_length hwf
    rw [hfr] at hlen
    have hsp : g.stackpos = 0 := by
      simp only [List.length_singleton, Nat.cast_one] at hlen
      omega
    have hmiss : S[p]? ≠ some c := by
      rw [List.getElem?_eq_none (by omega)]
      simp
    have h1 : step (starProg c) (S ++ rest) S.length ⟨1, p, 0, g⟩ =
        .running ⟨FAIL, p, 0, g⟩ :=
      step_char_miss (show (starProg c)[1]? = some (mkChar c 0) from rfl) (by decide) hmiss
    have h2 : step (starProg c) (S ++ rest) S.length ⟨FAIL, p, 0, g⟩ =
        .running ⟨3, p, 0, STACK_POP g⟩ := step_fail_backtrack _ _ _ hne htop rfl
    have h3 : step (starProg c) (S ++ rest) S.length ⟨3, p, 0, STACK_POP g⟩ =
        .done (.ret (.success p) (STACK_POP g)) :=
      step_end (show (starProg c)[3]? = some mkEnd from rfl) rfl (by decide)
    have hall := exec_trans (exec_one h1) (exec_trans (exec_one h2) (exec_one h3))
    refine ⟨p, STACK_POP g, le_refl _, by omega, fun i h1 h2 => by omega, hmiss, ?_, ?_, ?_⟩
    · show g.stackpos - 1 = -1
      omega
    · rw [Nat.sub_self]
      exact hall
    · intro n cfg hn
      by_cases n0 : n = 0
      · subst n0
        cases hn
        show g.stackpos ≤ 0
        omega
      by_cases n1 : n = 1
      · subst n1
        rw [exec_one h1] at hn
        cases hn
        show g.stackpos ≤ 0
        omega
      by_cases n2 : n = 2
      · subst n2
        rw [exec_trans (exec_one h1) (exec_one h2)] at hn
        cases hn
        show g.stackpos - 1 ≤ 0
        omega
      · rw [exec_done_mono hall (by omega)] at hn
        cases hn
  | succ d ih =>
    intro p g hp hwf hfr
    have hfr2 : g.frames = [] ++ [⟨.BacktrackData, 3, (p : Int), 0⟩] := hfr
    obtain ⟨hne, htop, hpwf, hpfr⟩ := top_of_frames hwf hfr2
    have hlen := frames_length hwf
    rw [hfr] at hlen
    have hsp : g.stackpos = 0 := by
      simp only [List.length_singleton, Nat.cast_one] at hlen
      omega
    by_cases hhit : S[p]? = some c
    · have h1 : step (starProg c) (S ++ rest) S.length ⟨1, p, 0, g⟩ =
          .running ⟨1 + 1, (p : Int) + 1, 0, g⟩ :=
        step_char_hit (show (starProg c)[1]? = some (mkChar c 0) from rfl) (by decide) hhit
      have hpc2 : (⟨1 + 1, (p : Int) + 1, 0, g⟩ : Config).pc ≠ FAIL := by
        show (1 + 1 : Nat) ≠ 4294967295
        decide
      obtain ⟨g1, h2, hwf1, hsp1, -, hfr1, -⟩ :=
        @step_partialcommit (starProg c) (S ++ rest) (S.length : Int)
          ⟨1 + 1, (p : Int) + 1, 0, g⟩ (mkPartialCommit (-1)) []
          ⟨.BacktrackData, 3, (p : Int), 0⟩ hpc2 rfl rfl hwf hfr2 rfl
      have h2a : step (starProg c) (S ++ rest) S.length ⟨1 + 1, (p : Int) + 1, 0, g⟩ =
          .running ⟨1, ((p + 1 : Nat) : Int), 0, g1⟩ := by
        rw [h2]
        push_cast
        rfl
      have hfr1a : g1.frames = [⟨.BacktrackData, 3, ((p + 1 : Nat) : Int), 0⟩] := by
        rw [hfr1]
        push_cast
        rfl
      obtain ⟨q, g2, k1, k2, k3, k4, k5, k6, k7⟩ := ih (p + 1) g1 (by omega) hwf1 hfr1a
      have h12 := exec_trans (exec_one h1) (exec_one h2a)
      refine ⟨q, g2, by omega, k2, ?_, k4, k5, ?_, ?_⟩
      · intro i hi1 hi2
        by_cases hip : i = p
        · rw [hip]
          exact hhit
        · exact k3 i (by omega) hi2
      · have hall := exec_trans h12 k6
        have e : 2 * (q - p) + 3 = 1 + 1 + (2 * (q - (p + 1)) + 3) := by omega
        rw [e]
        exact hall
      · intro n cfg hn
        by_cases n0 : n = 0
        · subst n0
          cases hn
          show g.stackpos ≤ 0
          omega
        by_cases n1 : n = 1
        · subst n1
          rw [exec_one h1] at hn
          cases hn
          show g.stackpos ≤ 0
          omega
        · obtain ⟨m, rfl⟩ : ∃ m, n = 1 + 1 + m := ⟨n - 2, by omega⟩
          rw [exec_add, h12] at hn
          exact k7 m cfg hn
    · have h1 : step (starProg c) (S ++ rest) S.length ⟨1, p, 0, g⟩ =
          .running ⟨FAIL, p, 0, g⟩ :=
        step_char_miss (show (starProg c)[1]? = some (mkChar c 0) from rfl) (by decide) hhit
      have h2 : step (starProg c) (S ++ rest) S.length ⟨FAIL, p, 0, g⟩ =
          .running ⟨3, p, 0, STACK_POP g⟩ := step_fail_backtrack _ _ _ hne htop rfl
      have h3 : step (starProg c) (S ++ rest) S.length ⟨3, p, 0, STACK_POP g⟩ =
          .done (.ret (.success p) (STACK_POP g)) :=
        step_end (show (starProg c)[3]? = some mkEnd from rfl) rfl (by decide)
      have hall := exec_trans (exec_one h1) (exec_trans (exec_one h2) (exec_one h3))
      refine ⟨p, STACK_POP g, le_refl _, by omega, fun i h1 h2 => by omega, hhit, ?_, ?_, ?_⟩
      · show g.stackpos - 1 = -1
        omega
      · rw [Nat.sub_self]
        exact hall
      · intro n cfg hn
        by_cases n0 : n = 0
        · subst n0
          cases hn
          show g.stackpos ≤ 0
          omega
        by_cases n1 : n = 1
        · subst n1
          rw [exec_one h1] at hn
          cases hn
          show g.stackpos ≤ 0
          omega
        by_cases n2 : n = 2
        · subst n2
          rw [exec_trans (exec_one h1) (exec_one h2)] at hn
          cases hn
          show g.stackpos - 1 ≤ 0
          omega
        · rw [exec_done_mono hall (by omega)] at hn
          cases hn

/-! ## The limit of the stack counters -/

theorem pushAll_append (g : Stack) (ps qs : List Push) :
    pushAll g (ps ++ qs) = (pushAll g ps).bind (fun g1 => pushAll g1 qs) := by
  induction ps generalizing g with
  | nil => rfl
  | cons p ps ih =>
    show (match p.apply g with
      | none => none
      | some g1 => pushAll g1 (ps ++ qs)) =
      (match p.apply g with
      | none => none
      | some g1 => pushAll g1 ps).bind (fun g1 => pushAll g1 qs)
    cases p.apply g with
    | none => rfl
    | some g1 => exact ih g1

theorem pushAll_int_limit (ps : List Push) (p : Push) (hlen : ps.length = 2147483600) :
    ∃ g, pushAll Stack.initial ps = some g ∧ g.stackpos = 2147483599 ∧
      g.stacksize = 2147483600 ∧ Stack_Ensure g = none ∧
      pushAll Stack.initial (ps ++ [p]) = none := by
  have hsz0 : Stack.initial.stacksize = 100 * ((Stack.initial.stackpos + 1 + 99) / 100) := by
    decide
  have hlenI : (ps.length : Int) = 2147483600 := by
    rw [hlen]
    rfl
  obtain ⟨g, es, h1, -, h3, -, -, h6⟩ := pushAll_spec ps _ wf_initial hsz0
    (by show (-1 : Int) + 1 + (ps.length : Int) ≤ 2147483600; omega)
  have hsp : g.stackpos = 2147483599 := by
    rw [h3]
    show (-1 : Int) + (ps.length : Int) = 2147483599
    omega
  have hsz : g.stacksize = 2147483600 := by
    rw [h6, hsp]
    norm_num
  have hens : Stack_Ensure g = none := by
    unfold Stack_Ensure
    rw [hsp, hsz]
    rfl
  refine ⟨g, h1, hsp, hsz, hens, ?_⟩
  rw [pushAll_append, h1]
  show pushAll g [p] = none
  unfold pushAll
  cases p with
  | ret r =>
    show (match STACK_PUSHRET g r with | none => none | some g1 => pushAll g1 []) = none
    unfold STACK_PUSHRET
    rw [hens]
  | alt a q c =>
    show (match STACK_PUSHALT g a q c with | none => none | some g1 => pushAll g1 []) = none
    unfold STACK_PUSHALT
    rw [hens]

/-! ## Properties of the matcher -/

/-- C1 (anchored literal match).  For every code unit `c`, input `S` (followed in
memory by any `rest`) and start `k ≤ |S|`, `run` on `[Char(c, offset 0), End]`,
entered with an empty stack, returns `success (k+1)` when `k < |S|` and
`S[k] = c`, and no-match otherwise; the globals are left as they were. -/
theorem anchored_literal_match (c : Nat) (S rest : List Nat) (k : Nat) (hk : k ≤ S.length)
    (stk : Stack) (hstk : stk.stackpos = -1) (fuel : Nat) (hfuel : 2 ≤ fuel) :
    run [mkChar c 0, mkEnd] (S ++ rest) k S.length stk fuel =
      some (.ret (if S[k]? = some c then .success (k + 1) else .noMatch) stk) := by
  have h0 : (entry (k : Int) stk).pc ≠ FAIL := by simp [entry, FAIL]
  have hi0 : [mkChar c 0, mkEnd][(entry (k : Int) stk).pc]? = some (mkChar c 0) := rfl
  by_cases hhit : S[k]? = some c
  · have hlt : k < S.length := by
      by_contra hge
      rw [List.getElem?_eq_none (by omega)] at hhit
      cases hhit
    have hs1 : step [mkChar c 0, mkEnd] (S ++ rest) S.length (entry k stk) =
        .running { pc := 1, pos := k + 1, capture := 0, stk := stk } := by
      rw [step_eq_dispatch h0 hi0, dispatch_char_hit _ _ _ _ rfl]
      · rfl
      · show (k : Int) < S.length
        omega
      · show readUnit (S ++ rest) (k : Int) = some c
        rw [readUnit_append_lt S rest k hlt, hhit]
    have hs2 : step [mkChar c 0, mkEnd] (S ++ rest) S.length
        { pc := 1, pos := k + 1, capture := 0, stk := stk } =
        .done (.ret (.success (k + 1)) stk) := by
      rw [step_eq_dispatch (by simp [FAIL]) (show [mkChar c 0, mkEnd][1]? = some mkEnd from rfl),
        dispatch_end _ _ _ _ rfl]
    rw [if_pos hhit]
    exact run_mono (run_of_exec ((exec_step_running hs1 1).trans (exec_step_done hs2 0))) hfuel
  · have hs1 : step [mkChar c 0, mkEnd] (S ++ rest) S.length (entry k stk) =
        .running { pc := FAIL, pos := k, capture := 0, stk := stk } := by
      rw [step_eq_dispatch h0 hi0, dispatch_char_miss _ _ _ _ rfl rfl]
      · rfl
      · intro hlt
        have hlt2 : k < S.length := by
          have : (k : Int) < S.length := hlt
          omega
        refine ⟨S[k], ?_, ?_⟩
        · show readUnit (S ++ rest) (k : Int) = some S[k]
          rw [readUnit_append_lt S rest k hlt2, List.getElem?_eq_getElem hlt2]
        · intro heq
          apply hhit
          rw [List.getElem?_eq_getElem hlt2, heq]
          rfl
    have hs2 : step [mkChar c 0, mkEnd] (S ++ rest) S.length
        { pc := FAIL, pos := k, capture := 0, stk := stk } = .done (.ret .noMatch stk) :=
      step_fail_empty _ _ _ _ rfl hstk
    rw [if_neg hhit]
    exact run_mono (run_of_exec ((exec_step_running hs1 1).trans (exec_step_done hs2 0))) hfuel

/-- C1 at `c = 'a'`, `S = "ab"` followed by a terminator, `k = 0`, the initial
globals and two loop iterations. -/
theorem anchored_literal_match_witness :
    run [mkChar 97 0, mkEnd] ([97, 98] ++ [0]) (0 : Nat) ([97, 98] : List Nat).length
        Stack.initial 2 =
      some (.ret (if ([97, 98] : List Nat)[0]? = some 97 then .success ((0 : Nat) + 1)
        else .noMatch) Stack.initial) :=
  anchored_literal_match 97 [97, 98] [0] 0 (by decide) Stack.initial rfl 2 (by decide)

/-- C2 (ordered choice).  For literals `A`, `B`, input `S` (followed in memory by
any `rest`) and start `k`, `run` on `[Choice(|A|+2, 0), A, Commit(|B|+1), B, End]`,
entered with an empty stack, returns `success (k+|A|)` if `A` occurs in `S` at `k`;
otherwise `success (k+|B|)` if `B` occurs in `S` at `k`; otherwise no-match; the
stack is empty again on return.  When `A` occurs at `k`, every configuration the
loop reaches has its program counter outside the instructions of `B`. -/
theorem ordered_choice (A B S rest : List Nat) (k : Nat) (stk : Stack) (hwf : stk.wf)
    (hstk : stk.stackpos = -1) (hsize : A.length + B.length + 3 < 2147483648) :
    (∃ stk1, stk1.stackpos = -1 ∧ ∀ fuel, A.length + B.length + 3 ≤ fuel →
      run (choiceProg A B) (S ++ rest) k S.length stk fuel =
        some (.ret (if occursAt A S k then .success (k + A.length)
                    else if occursAt B S k then .success (k + B.length)
                    else .noMatch) stk1)) ∧
    (occursAt A S k → ∀ n c,
      exec (choiceProg A B) (S ++ rest) S.length n (entry k stk) = .running c →
        c.pc < A.length + 2 ∨ c.pc = A.length + B.length + 2) := by
  obtain ⟨g1, hs0, -, hg1pos, hg1top, -⟩ :=
    step_choice (S ++ rest) S.length k 0
      (choiceProg_zero A B) rfl (by omega) hwf (canGrow_of_empty hwf hstk)
  have hpop : (STACK_POP g1).stackpos = -1 := by
    show g1.stackpos - 1 = -1
    omega
  have hne1 : g1.stackpos ≠ -1 := by omega
  have halt : addOffset 0 (mkChoice (A.length + 2) 0).offset = A.length + 2 := by
    show ((((0 : Nat) : Int) + ((A.length : Int) + 2)) % 4294967296).toNat = A.length + 2
    omega
  have hcom : addOffset (A.length + 1) (mkCommit (B.length + 1)).offset
      = A.length + B.length + 2 := by
    show ((((A.length + 1 : Nat) : Int) + ((B.length : Int) + 1)) % 4294967296).toNat = _
    omega
  have hs0a : exec (choiceProg A B) (S ++ rest) S.length 1 (entry k stk) =
      .running ⟨1, k, 0, g1⟩ := exec_one hs0
  have hprogA : ∀ i c, A[i]? = some c → (choiceProg A B)[1 + i]? = some (mkChar c 0) :=
    choiceProg_A A B
  have hprogB : ∀ i c, B[i]? = some c →
      (choiceProg A B)[A.length + 2 + i]? = some (mkChar c 0) := choiceProg_B A B
  have hendB : step (choiceProg A B) (S ++ rest) S.length
      ⟨A.length + 2 + B.length, ((k + B.length : Nat) : Int), 0, STACK_POP g1⟩ =
      .done (.ret (.success ((k + B.length : Nat) : Int)) (STACK_POP g1)) :=
    step_end (by rw [← choiceProg_end A B]; congr 1; omega) rfl
      (by show A.length + 2 + B.length ≠ 4294967295; omega)
  have hendA : step (choiceProg A B) (S ++ rest) S.length
      ⟨A.length + B.length + 2, ((k + A.length : Nat) : Int), 0, STACK_POP g1⟩ =
      .done (.ret (.success ((k + A.length : Nat) : Int)) (STACK_POP g1)) :=
    step_end (choiceProg_end A B) rfl
      (by show A.length + B.length + 2 ≠ 4294967295; omega)
  have hcommit : step (choiceProg A B) (S ++ rest) S.length
      ⟨1 + A.length, ((k + A.length : Nat) : Int), 0, g1⟩ =
      .running ⟨A.length + B.length + 2, ((k + A.length : Nat) : Int), 0, STACK_POP g1⟩ := by
    rw [step_commit (mkCommit (B.length + 1))
      (by rw [← choiceProg_commit A B]; congr 1; omega) rfl
      (by show 1 + A.length ≠ 4294967295; omega) (popOverflows_of_ge (by omega))]
    have : 1 + A.length = A.length + 1 := by omega
    rw [this, hcom]
  constructor
  · refine ⟨STACK_POP g1, hpop, ?_⟩
    intro fuel hfuel
    by_cases hA : occursAt A S k
    · rw [if_pos hA]
      have hlit := exec_literal_prefix (choiceProg A B) S rest A 1 k 0
        g1 hprogA (by omega) A.length le_rfl ((occursAt_iff A S k).1 hA)
      have hall := exec_trans hs0a (exec_trans hlit (exec_trans (exec_one hcommit)
        (exec_one hendA)))
      have hr := run_mono (run_of_exec hall) (m := fuel) (by omega)
      rw [hr]
      push_cast
      rfl
    · rw [if_neg hA]
      obtain ⟨j, hj, hjm, hjx⟩ := first_miss A S k hA
      have hlit := exec_literal_miss (choiceProg A B) S rest A 1 k 0
        g1 hprogA (by omega) j hj hjm hjx
      have hrec : step (choiceProg A B) (S ++ rest) S.length
          ⟨FAIL, ((k + j : Nat) : Int), 0, g1⟩ =
          .running ⟨A.length + 2, k, 0, STACK_POP g1⟩ := by
        rw [step_fail_backtrack _ _ _ hne1 hg1top rfl]
        show Status.running ⟨addOffset 0 (mkChoice (A.length + 2) 0).offset,
          (k : Int) - ((0 : Nat) : Int), _, _⟩ = _
        rw [halt, Nat.cast_zero, sub_zero]
      by_cases hB : occursAt B S k
      · rw [if_pos hB]
        have hlitB := exec_literal_prefix (choiceProg A B) S rest B
          (A.length + 2) k 0 (STACK_POP g1) hprogB (by omega) B.length le_rfl
          ((occursAt_iff B S k).1 hB)
        have hall := exec_trans hs0a (exec_trans hlit (exec_trans (exec_one hrec)
          (exec_trans hlitB (exec_one hendB))))
        have hr := run_mono (run_of_exec hall) (m := fuel) (by omega)
        rw [hr]
        push_cast
        rfl
      · rw [if_neg hB]
        obtain ⟨i, hi, him, hix⟩ := first_miss B S k hB
        have hlitB := exec_literal_miss (choiceProg A B) S rest B
          (A.length + 2) k 0 (STACK_POP g1) hprogB (by omega) i hi him hix
        have hfin : step (choiceProg A B) (S ++ rest) S.length
            ⟨FAIL, ((k + i : Nat) : Int), 0, STACK_POP g1⟩ =
            .done (.ret .noMatch (STACK_POP g1)) := step_fail_empty _ _ _ _ rfl hpop
        have hall := exec_trans hs0a (exec_trans hlit (exec_trans (exec_one hrec)
          (exec_trans hlitB (exec_one hfin))))
        exact run_mono (run_of_exec hall) (by omega)
  · intro hA n c hn
    have hlitA := fun j (hj : j ≤ A.length) =>
      exec_literal_prefix (choiceProg A B) S rest A 1 k 0
        g1 hprogA (by omega) j hj (fun i hi => (occursAt_iff A S k).1 hA i (by omega))
    by_cases h0 : n = 0
    · subst h0
      cases hn
      left
      show 0 < A.length + 2
      omega
    by_cases h1 : n ≤ A.length + 1
    · obtain ⟨j, rfl⟩ : ∃ j, n = 1 + j := ⟨n - 1, by omega⟩
      rw [exec_trans hs0a (hlitA j (by omega))] at hn
      cases hn
      left
      show 1 + j < A.length + 2
      omega
    by_cases h2 : n = A.length + 2
    · have hall := exec_trans hs0a (exec_trans (hlitA A.length le_rfl) (exec_one hcommit))
      have e : n = 1 + (A.length + 1) := by omega
      rw [e, hall] at hn
      cases hn
      right
      rfl
    · have hall := exec_trans hs0a (exec_trans (hlitA A.length le_rfl)
        (exec_trans (exec_one hcommit) (exec_one hendA)))
      rw [exec_done_mono hall (by omega)] at hn
      cases hn

/-- C2 at `A = "ab"`, `B = "a"`, `S = "ac"`, `k = 0` and the initial globals. -/
theorem ordered_choice_witness :
    Stack.initial.wf ∧ Stack.initial.stackpos = -1 ∧
    ([97, 98] : List Nat).length + ([97] : List Nat).length + 3 < 2147483648 ∧
    (∃ stk1, stk1.stackpos = -1 ∧
      ∀ fuel, ([97, 98] : List Nat).length + ([97] : List Nat).length + 3 ≤ fuel →
      run (choiceProg [97, 98] [97]) ([97, 99] ++ []) (0 : Nat) ([97, 99] : List Nat).length
          Stack.initial fuel =
        some (.ret (if occursAt [97, 98] [97, 99] 0
                    then .success ((0 : Nat) + ([97, 98] : List Nat).length)
                    else if occursAt [97] [97, 99] 0
                    then .success ((0 : Nat) + ([97] : List Nat).length)
                    else .noMatch) stk1)) ∧
    (occursAt [97, 98] [97, 99] 0 → ∀ n c,
      exec (choiceProg [97, 98] [97]) ([97, 99] ++ []) ([97, 99] : List Nat).length n
          (entry (0 : Nat) Stack.initial) = .running c →
        c.pc < ([97, 98] : List Nat).length + 2 ∨
        c.pc = ([97, 98] : List Nat).length + ([97] : List Nat).length + 2) :=
  ⟨wf_initial, rfl, by decide,
    ordered_choice [97, 98] [97] [97, 99] [] 0 Stack.initial wf_initial rfl (by decide)⟩

/-- C3 (negative lookahead).  For a literal `inner`, input `S` (followed in memory
by any `rest`) and start `k`, `run` on `[Choice(|inner|+2, 0), inner, FailTwice, End]`,
entered with an empty stack, returns no-match when `inner` occurs in `S` at `k`
and `success k` (no input consumed) when it does not; the stack is empty again
on return. -/
theorem negative_lookahead (inner S rest : List Nat) (k : Nat) (stk : Stack) (hwf : stk.wf)
    (hstk : stk.stackpos = -1) (hsize : inner.length + 3 < 2147483648) :
    ∃ stk1, stk1.stackpos = -1 ∧ ∀ fuel, inner.length + 3 ≤ fuel →
      run (notProg inner) (S ++ rest) k S.length stk fuel =
        some (.ret (if occursAt inner S k then .noMatch else .success k) stk1) := by
  obtain ⟨g1, hs0, -, hg1pos, hg1top, -⟩ :=
    step_choice (S ++ rest) S.length k 0
      (notProg_zero inner) rfl (by omega) hwf (canGrow_of_empty hwf hstk)
  have hpop : (STACK_POP g1).stackpos = -1 := by
    show g1.stackpos - 1 = -1
    omega
  have hne1 : g1.stackpos ≠ -1 := by omega
  have halt : addOffset 0 (mkChoice (inner.length + 2) 0).offset = inner.length + 2 := by
    show ((((0 : Nat) : Int) + ((inner.length : Int) + 2)) % 4294967296).toNat = _
    omega
  have hs0a : exec (notProg inner) (S ++ rest) S.length 1 (entry k stk) =
      .running ⟨1, k, 0, g1⟩ := exec_one hs0
  refine ⟨STACK_POP g1, hpop, ?_⟩
  intro fuel hfuel
  by_cases hA : occursAt inner S k
  · rw [if_pos hA]
    have hlit := exec_literal_prefix (notProg inner) S rest inner 1 k
      0 g1 (notProg_inner inner) (by omega) inner.length le_rfl ((occursAt_iff inner S k).1 hA)
    have hft : step (notProg inner) (S ++ rest) S.length
        ⟨1 + inner.length, ((k + inner.length : Nat) : Int), 0, g1⟩ =
        .running ⟨FAIL, ((k + inner.length : Nat) : Int), 0, STACK_POP g1⟩ :=
      step_failtwice mkFailTwice
        (by rw [← notProg_failtwice inner]; congr 1; omega) rfl
        (by show 1 + inner.length ≠ 4294967295; omega) (popOverflows_of_ge (by omega))
    have hfin : step (notProg inner) (S ++ rest) S.length
        ⟨FAIL, ((k + inner.length : Nat) : Int), 0, STACK_POP g1⟩ =
        .done (.ret .noMatch (STACK_POP g1)) := step_fail_empty _ _ _ _ rfl hpop
    have hall := exec_trans hs0a (exec_trans hlit (exec_trans (exec_one hft) (exec_one hfin)))
    exact run_mono (run_of_exec hall) (by omega)
  · rw [if_neg hA]
    obtain ⟨j, hj, hjm, hjx⟩ := first_miss inner S k hA
    have hlit := exec_literal_miss (notProg inner) S rest inner 1 k 0
      g1 (notProg_inner inner) (by omega) j hj hjm hjx
    have hrec : step (notProg inner) (S ++ rest) S.length
        ⟨FAIL, ((k + j : Nat) : Int), 0, g1⟩ =
        .running ⟨inner.length + 2, k, 0, STACK_POP g1⟩ := by
      rw [step_fail_backtrack _ _ _ hne1 hg1top rfl]
      show Status.running ⟨addOffset 0 (mkChoice (inner.length + 2) 0).offset,
        (k : Int) - ((0 : Nat) : Int), _, _⟩ = _
      rw [halt, Nat.cast_zero, sub_zero]
    have hend : step (notProg inner) (S ++ rest) S.length
        ⟨inner.length + 2, (k : Int), 0, STACK_POP g1⟩ =
        .done (.ret (.success (k : Int)) (STACK_POP g1)) :=
      step_end (notProg_end inner) rfl (by show inner.length + 2 ≠ 4294967295; omega)
    have hall := exec_trans hs0a (exec_trans hlit (exec_trans (exec_one hrec) (exec_one hend)))
    exact run_mono (run_of_exec hall) (by omega)

/-- C3 at `inner = "ab"`, `S = "ac"`, `k = 0` and the initial globals. -/
theorem negative_lookahead_witness :
    Stack.initial.wf ∧ Stack.initial.stackpos = -1 ∧
    ([97, 98] : List Nat).length + 3 < 2147483648 ∧
    ∃ stk1, stk1.stackpos = -1 ∧ ∀ fuel, ([97, 98] : List Nat).length + 3 ≤ fuel →
      run (notProg [97, 98]) ([97, 99] ++ []) (0 : Nat) ([97, 99] : List Nat).length
          Stack.initial fuel =
        some (.ret (if occursAt [97, 98] [97, 99] 0 then .noMatch else .success (0 : Nat))
          stk1) :=
  ⟨wf_initial, rfl, by decide,
    negative_lookahead [97, 98] [97, 99] [] 0 Stack.initial wf_initial rfl (by decide)⟩

/-- C4 (greedy span), the code at its failing inputs.  `Span` reads `*pos` without
comparing `pos` with `end`.  On the buffer `"aaaab"` with `end` after the third
code unit (input `"aaa"`), `[Span({'a'}), End]` from position 0 returns position
4, beyond `end = 3`.  On `"aaa"` followed by its terminating 0, with a set that
holds `'a'` and 0, it advances over the terminator and then reads outside the
buffer. -/
theorem span_passes_end :
    run [mkSpan (charsetOf [97]), mkEnd] [97, 97, 97, 97, 98] 0 3 Stack.initial 6 =
      some (.ret (.success 4) Stack.initial) ∧
    cpeg_match [mkSpan (charsetOf [0, 97]), mkEnd] [97, 97, 97] Stack.initial 6 =
      some .undefined := by
  constructor <;> decide

/-- C5 (result lower bound), as amended.  For every program in which every `Choice`
carries lookback count 0, every buffer, start `target` and `end`: if `run`,
entered with an empty stack, returns `success e`, then `e ≥ target`. -/
theorem result_lower_bound (prog : List Instruction) (mem : List Nat) (target endp : Int)
    (stk : Stack) (fuel : Nat) (e : Int) (stk1 : Stack)
    (hlb : ∀ i ∈ prog, i.instr = .iChoice → i.count = 0) (hstk : stk.stackpos = -1)
    (h : run prog mem target endp stk fuel = some (.ret (.success e) stk1)) :
    target ≤ e := by
  unfold run at h
  cases hx : exec prog mem endp fuel (entry target stk) with
  | running c => rw [hx] at h; cases h
  | done o =>
    rw [hx] at h
    simp only [Option.some.injEq] at h
    subst h
    refine exec_savedPos hlb fuel (entry target stk) (le_refl _) ?_ e stk1 hx
    intro i e1 hi _ _
    have : (i : Int) ≤ stk.stackpos := hi
    omega

/-- C5 at `[Choice(2, 0), Fail, End]` on `"ab"` from position 1 with the initial
globals: the match backtracks to `End` and returns position 1. -/
theorem result_lower_bound_witness :
    (∀ i ∈ [mkChoice 2 0, mkFail, mkEnd], i.instr = .iChoice → i.count = 0) ∧
    Stack.initial.stackpos = -1 ∧
    run [mkChoice 2 0, mkFail, mkEnd] [97, 98, 0] 1 2 Stack.initial 4 =
      some (.ret (.success 1)
        (globalsAfter (run [mkChoice 2 0, mkFail, mkEnd] [97, 98, 0] 1 2 Stack.initial 4)
          Stack.initial)) ∧
    (1 : Int) ≤ 1 :=
  have hlb : ∀ i ∈ [mkChoice 2 0, mkFail, mkEnd], i.instr = .iChoice → i.count = 0 := by
    decide
  have hrun : run [mkChoice 2 0, mkFail, mkEnd] [97, 98, 0] 1 2 Stack.initial 4 =
      some (.ret (.success 1)
        (globalsAfter (run [mkChoice 2 0, mkFail, mkEnd] [97, 98, 0] 1 2 Stack.initial 4)
          Stack.initial)) := rfl
  ⟨hlb, rfl, hrun,
    result_lower_bound [mkChoice 2 0, mkFail, mkEnd] [97, 98, 0] 1 2 Stack.initial 4 1 _ hlb
      rfl hrun⟩

/-- C5 as stated fails.  `[Choice(2, lookback 1), Fail, End]` on `"ab"` from
position 1, entered with the initial globals, returns `success 0`, before the
start position: the `Choice` saved the position `1 - 1` and `Fail` backtracks to
it. -/
theorem result_lower_bound_counterexample :
    Stack.initial.stackpos = -1 ∧
    resultOf (run [mkChoice 2 1, mkFail, mkEnd] [97, 98, 0] 1 2 Stack.initial 4) =
      some (.success 0) ∧
    ¬ ((1 : Int) ≤ 0) := by
  refine ⟨rfl, ?_, ?_⟩ <;> decide

/-- C6 (determinism across repeated invocations), the code at its failing input.
A match of `[Choice(2, 0), End, End]` on `"ab"` returns with one Backtrack frame
left on the stack.  The next two calls, both of `[Fail, End, End]` on `"ab"`,
return `success 0` (the first one backtracks into the frame that was left) and
then no-match.  Also from the initial globals: two successive calls of
`[Choice(1, 0), Commit(1), Commit(1), End]` return `success 0` with
`stackpos = -2` and then store to `stack[-1]`. -/
theorem repeated_match_differs :
    (globalsAfter (cpeg_match [mkChoice 2 0, mkEnd, mkEnd] [97, 98] Stack.initial 5)
      Stack.initial).stackpos = 0 ∧
    resultOf (cpeg_match [mkFail, mkEnd, mkEnd] [97, 98]
      (globalsAfter (cpeg_match [mkChoice 2 0, mkEnd, mkEnd] [97, 98] Stack.initial 5)
        Stack.initial) 5) = some (.success 0) ∧
    resultOf (cpeg_match [mkFail, mkEnd, mkEnd] [97, 98]
      (globalsAfter (cpeg_match [mkFail, mkEnd, mkEnd] [97, 98]
        (globalsAfter (cpeg_match [mkChoice 2 0, mkEnd, mkEnd] [97, 98] Stack.initial 5)
          Stack.initial) 5) Stack.initial) 5) = some .noMatch ∧
    resultOf (cpeg_match [mkChoice 1 0, mkCommit 1, mkCommit 1, mkEnd] [97, 98]
      Stack.initial 5) = some (.success 0) ∧
    (globalsAfter (cpeg_match [mkChoice 1 0, mkCommit 1, mkCommit 1, mkEnd] [97, 98]
      Stack.initial 5) Stack.initial).stackpos = -2 ∧
    cpeg_match [mkChoice 1 0, mkCommit 1, mkCommit 1, mkEnd] [97, 98]
      (globalsAfter (cpeg_match [mkChoice 1 0, mkCommit 1, mkCommit 1, mkEnd] [97, 98]
        Stack.initial 5) Stack.initial) 5 = some .undefined := by
  refine ⟨?_, ?_, ?_, ?_, ?_, ?_⟩ <;> rfl

/-- C7 (stack discipline), the code at its failing inputs.  `Commit` and
`FailTwice` execute `STACK_POP()` without testing `STACK_EMPTY()`.  Entered with
the initial globals (`stackpos = -1`), `[Commit(1), End]` on `"a"` pops the empty
stack in its first iteration and returns `success 0` with `stackpos = -2`.
`[FailTwice, End]` reaches the fail state with `stackpos = -2`, where
`STACK_EMPTY()` is false and `STACK_TOPTYPE()` reads `stack[-2]`.  In
`[Commit(1), Choice(1, 0), End]` the push that follows the pop stores to
`stack[-1]`.  The fail state does test `STACK_EMPTY()`: `[Fail, End]` returns
no-match and leaves the globals as they were. -/
theorem unguarded_pop_underflows :
    exec [mkCommit 1, mkEnd] [97, 0] 1 1 (entry 0 Stack.initial) =
      .running ⟨1, 0, 0, { Stack.initial with stackpos := -2 }⟩ ∧
    cpeg_match [mkCommit 1, mkEnd] [97] Stack.initial 2 =
      some (.ret (.success 0) { Stack.initial with stackpos := -2 }) ∧
    exec [mkFailTwice, mkEnd] [97, 0] 1 1 (entry 0 Stack.initial) =
      .running ⟨FAIL, 0, 0, { Stack.initial with stackpos := -2 }⟩ ∧
    cpeg_match [mkFailTwice, mkEnd] [97] Stack.initial 2 = some .undefined ∧
    exec [mkCommit 1, mkChoice 1 0, mkEnd] [97, 0] 1 1 (entry 0 Stack.initial) =
      .running ⟨1, 0, 0, { Stack.initial with stackpos := -2 }⟩ ∧
    cpeg_match [mkCommit 1, mkChoice 1 0, mkEnd] [97] Stack.initial 2 = some .undefined ∧
    cpeg_match [mkFail, mkEnd] [97] Stack.initial 2 = some (.ret .noMatch Stack.initial) := by
  refine ⟨?_, ?_, ?_, ?_, ?_, ?_, ?_⟩ <;> rfl

/-- C8 (growth correctness), as amended.  From the initial globals
(`stackpos = -1`, `stacksize = 0`), any list `ps` of at most 2147483600 pushes
(`STACK_PUSHRET` and `STACK_PUSHALT` in any mix) with no pop in between succeeds
without overflowing the `int`s `stackpos` and `stacksize`: the `n+1`-st push
leaves `stackpos = n`, an index strictly below `stacksize`, inside the array of
`stacksize` cells; after all `N` pushes `stacksize` is `N` rounded up to a
multiple of the 100-entry chunk; and `N` top-then-pop operations read entries
whose tags and payloads are exactly the pushed ones in reverse push order,
leaving the stack empty. -/
theorem growth_correctness (ps : List Push) (hN : ps.length ≤ 2147483600) :
    (∀ n, n < ps.length → ∃ gn, pushAll Stack.initial (ps.take (n + 1)) = some gn ∧
      gn.stackpos = (n : Int) ∧ gn.stackpos < gn.stacksize ∧
      (gn.stack.length : Int) = gn.stacksize) ∧
    ∃ g es g1, pushAll Stack.initial ps = some g ∧
      g.stackpos = (ps.length : Int) - 1 ∧
      (g.stack.length : Int) = g.stacksize ∧
      g.stacksize = ((100 * ((ps.length + 99) / 100) : Nat) : Int) ∧
      popAll ps.length g = some (es, g1) ∧
      es.map StackEntry.view = ps.reverse ∧
      STACK_EMPTY g1 = true := by
  have hsz0 : Stack.initial.stacksize = 100 * ((Stack.initial.stackpos + 1 + 99) / 100) := by
    decide
  constructor
  · intro n hn
    have hlen : (ps.take (n + 1)).length ≤ ps.length := by
      rw [List.length_take]
      exact Nat.min_le_right _ _
    obtain ⟨g, es, h1, h2, h3, -, -, -⟩ := pushAll_spec (ps.take (n + 1)) _ wf_initial hsz0
      (by show (-1 : Int) + 1 + ((ps.take (n + 1)).length : Int) ≤ 2147483600; omega)
    refine ⟨g, h1, ?_, h2.2.2, h2.1⟩
    rw [h3, List.length_take]
    show (-1 : Int) + ((min (n + 1) ps.length : Nat) : Int) = n
    omega
  · obtain ⟨g, es, h1, h2, h3, h4, h5, h6⟩ := pushAll_spec ps _ wf_initial hsz0
      (by show (-1 : Int) + 1 + (ps.length : Int) ≤ 2147483600; omega)
    have h3a : g.stackpos = (ps.length : Int) - 1 := by
      rw [h3]
      show (-1 : Int) + (ps.length : Int) = ps.length - 1
      omega
    have hfr : g.frames = es := by
      rw [h4]
      rfl
    have hlen : es.length = ps.length := by
      rw [← h5, List.length_map]
    refine ⟨g, es.reverse, { g with stackpos := g.stackpos - ps.length }, h1, h3a, h2.1, ?_,
      ?_, ?_, ?_⟩
    · rw [h6, h3a]
      push_cast
      omega
    · rw [popAll_spec ps.length g h2 (by rw [hfr, hlen]), hfr]
      rw [List.take_of_length_le (by rw [List.length_reverse, hlen])]
    · rw [List.map_reverse, h5]
    · simp only [STACK_EMPTY, h3a]
      simp

/-- C8 at the three pushes `PUSHRET(5)`, `PUSHALT(1, 2, 3)`, `PUSHRET(7)`: they
leave `stackpos = 2` and `stacksize = 100`, and three top-then-pop operations
read them back, last pushed first. -/
theorem growth_correctness_witness :
    [Push.ret 5, Push.alt 1 2 3, Push.ret 7].length ≤ 2147483600 ∧
    ∃ g es g1, pushAll Stack.initial [Push.ret 5, Push.alt 1 2 3, Push.ret 7] = some g ∧
      g.stackpos = (([Push.ret 5, Push.alt 1 2 3, Push.ret 7].length : Nat) : Int) - 1 ∧
      (g.stack.length : Int) = g.stacksize ∧
      g.stacksize =
        ((100 * (([Push.ret 5, Push.alt 1 2 3, Push.ret 7].length + 99) / 100) : Nat) : Int) ∧
      popAll [Push.ret 5, Push.alt 1 2 3, Push.ret 7].length g = some (es, g1) ∧
      es.map StackEntry.view = [Push.ret 5, Push.alt 1 2 3, Push.ret 7].reverse ∧
      STACK_EMPTY g1 = true :=
  ⟨by decide, (growth_correctness [Push.ret 5, Push.alt 1 2 3, Push.ret 7] (by decide)).2⟩

/-- C8 as stated fails.  After 2147483600 pushes from the initial globals
`stackpos` is 2147483599 and `stacksize` is 2147483600, so that in one more push
`Stack_Ensure` finds `stackpos + 1 >= stacksize` and `stacksize += STACK_CHUNK`
overflows the `int`: the 2147483601st push does not store an entry. -/
theorem growth_correctness_counterexample :
    ∃ g, pushAll Stack.initial (List.replicate 2147483600 (Push.ret 0)) = some g ∧
      g.stackpos = 2147483599 ∧ g.stacksize = 2147483600 ∧
      Stack_Ensure g = none ∧
      pushAll Stack.initial (List.replicate 2147483600 (Push.ret 0) ++ [Push.ret 0]) = none :=
  pushAll_int_limit (List.replicate 2147483600 (Push.ret 0)) (Push.ret 0)
    (List.length_replicate _ _)

/-- C9 (failure recovery), as amended.  Let the stack be consistent and the program
counter be `FAIL`.  If the frames are `lower`, then a Backtrack frame `B`, then
Return frames `rets` on top, the loop pops the `rets` one per iteration with
`pc`, position and capture unchanged; the next iteration sets `pc`, position and
capture to `B`'s alternative, saved position and saved capture and leaves
exactly the frames `lower`; and when `B`'s alternative is not the `FAIL` value
the following iteration is a normal dispatch of the instruction at that `pc`.
If every frame is a Return frame, `run` returns no-match with the stack empty. -/
theorem failure_recovery (prog : List Instruction) (mem : List Nat) (endp : Int) (pos : Int)
    (cap : Nat) (stk : Stack) (hwf : stk.wf) :
    (∀ lower B rets, stk.frames = lower ++ B :: rets → B.entry_type = .BacktrackData →
      (∀ r ∈ rets, r.entry_type = .ReturnData) →
      (∀ j, j ≤ rets.length → exec prog mem endp j ⟨FAIL, pos, cap, stk⟩ =
        .running ⟨FAIL, pos, cap, { stk with stackpos := stk.stackpos - j }⟩) ∧
      exec prog mem endp (rets.length + 1) ⟨FAIL, pos, cap, stk⟩ =
        .running ⟨B.alternative, B.pos, B.capture_info,
          { stk with stackpos := stk.stackpos - (rets.length + 1 : Nat) }⟩ ∧
      ({ stk with stackpos := stk.stackpos - (rets.length + 1 : Nat) } : Stack).frames
        = lower ∧
      (B.alternative ≠ FAIL →
        step prog mem endp ⟨B.alternative, B.pos, B.capture_info,
            { stk with stackpos := stk.stackpos - (rets.length + 1 : Nat) }⟩ =
          match prog[B.alternative]? with
          | none => .done .undefined
          | some instr => dispatch instr mem endp ⟨B.alternative, B.pos, B.capture_info,
              { stk with stackpos := stk.stackpos - (rets.length + 1 : Nat) }⟩)) ∧
    ((∀ r ∈ stk.frames, r.entry_type = .ReturnData) →
      exec prog mem endp (stk.frames.length + 1) ⟨FAIL, pos, cap, stk⟩ =
        .done (.ret .noMatch { stk with stackpos := -1 })) := by
  constructor
  · intro lower B rets hfr hB hrets
    have hpops : ∀ j, j ≤ rets.length → exec prog mem endp j ⟨FAIL, pos, cap, stk⟩ =
        .running ⟨FAIL, pos, cap, { stk with stackpos := stk.stackpos - j }⟩ := by
      intro j hj
      have hsplit : stk.frames =
          (lower ++ B :: rets.take (rets.length - j)) ++ rets.drop (rets.length - j) := by
        rw [hfr, List.append_assoc, List.cons_append, List.take_append_drop]
      exact (exec_fail_returns prog mem endp pos cap j stk _ _ hwf hsplit
        (by rw [List.length_drop]; omega)
        (fun r hr => hrets r (List.mem_of_mem_drop hr))).1
    have hfr2 : stk.frames = (lower ++ [B]) ++ rets := by
      rw [hfr, List.append_assoc, List.singleton_append]
    obtain ⟨k1, k2, k3⟩ := exec_fail_returns prog mem endp pos cap rets.length stk _ _ hwf
      hfr2 rfl hrets
    obtain ⟨h1, h2, h3, h4⟩ := top_of_frames k2 k3
    have hstep : step prog mem endp
        ⟨FAIL, pos, cap, { stk with stackpos := stk.stackpos - rets.length }⟩ =
        .running ⟨B.alternative, B.pos, B.capture_info,
          STACK_POP { stk with stackpos := stk.stackpos - rets.length }⟩ :=
      step_fail_backtrack prog mem endp h1 h2 hB
    have hg : STACK_POP { stk with stackpos := stk.stackpos - rets.length } =
        { stk with stackpos := stk.stackpos - (rets.length + 1 : Nat) } := by
      show ({ stack := stk.stack, stackpos := stk.stackpos - rets.length - 1,
              stacksize := stk.stacksize } : Stack) = _
      congr 1
      push_cast
      omega
    rw [hg] at hstep h4
    refine ⟨hpops, exec_trans k1 (exec_one hstep), h4, ?_⟩
    intro hne
    simp only [step, hne, if_false]
  · intro hall
    obtain ⟨k1, k2, k3⟩ := exec_fail_returns prog mem endp pos cap stk.frames.length stk []
      stk.frames hwf (List.nil_append _).symm rfl hall
    have hlen := frames_length k2
    rw [k3] at hlen
    have hpos : ({ stk with stackpos := stk.stackpos - stk.frames.length } : Stack).stackpos
        = -1 := by
      simp only [List.length_nil, Nat.cast_zero] at hlen
      show stk.stackpos - stk.frames.length = -1
      omega
    have hg : ({ stk with stackpos := stk.stackpos - stk.frames.length } : Stack) =
        { stk with stackpos := -1 } := by
      show ({ stack := stk.stack, stackpos := stk.stackpos - stk.frames.length,
              stacksize := stk.stacksize } : Stack) = _
      congr 1
    rw [hg] at k1
    exact exec_trans k1 (exec_one (step_fail_empty prog mem endp _ rfl rfl))

/-- C9 at a stack of four frames (a Backtrack frame, the Backtrack frame
`(5, 7, 1)`, two Return frames): three iterations from the fail state end with
`pc = 5`, position 7, capture 1. -/
theorem failure_recovery_witness :
    sampleStack.wf ∧
    exec [mkEnd] [] 0 (([⟨.ReturnData, 3, 0, 0⟩, ⟨.ReturnData, 4, 0, 0⟩] :
        List StackEntry).length + 1) ⟨FAIL, 9, 4, sampleStack⟩ =
      .running ⟨5, 7, 1, { sampleStack with stackpos := sampleStack.stackpos -
        (([⟨.ReturnData, 3, 0, 0⟩, ⟨.ReturnData, 4, 0, 0⟩] :
          List StackEntry).length + 1 : Nat) }⟩ :=
  have hwf : sampleStack.wf := ⟨rfl, by decide, by decide⟩
  ⟨hwf, ((failure_recovery [mkEnd] [] 0 9 4 sampleStack hwf).1 [⟨.BacktrackData, 2, 0, 0⟩]
    ⟨.BacktrackData, 5, 7, 1⟩ [⟨.ReturnData, 3, 0, 0⟩, ⟨.ReturnData, 4, 0, 0⟩] rfl rfl
    (by decide)).2.1⟩

/-- C9 as stated fails.  Running `[Choice(3, 0), Choice(-2, 1), Fail, End]` on
`"ab"` from position 1 reaches the fail state after three iterations with two
Backtrack frames; the topmost has alternative `FAIL` and saved position 0.  The
iteration that restores from it leaves `pc = FAIL`, so the loop does not resume
normal dispatch there: it pops the frame below as well, and dispatch resumes at
`pc = 3`, position 1, with no frame left. -/
theorem failure_recovery_counterexample :
    ∃ c3 c4 c5,
      exec sentinelProg [97, 98, 0] 2 3 (entry 1 Stack.initial) = .running c3 ∧
      c3.pc = FAIL ∧
      c3.stk.frames = [⟨.BacktrackData, 3, 1, 0⟩, ⟨.BacktrackData, FAIL, 0, 0⟩] ∧
      exec sentinelProg [97, 98, 0] 2 4 (entry 1 Stack.initial) = .running c4 ∧
      c4.pc = FAIL ∧ c4.pos = 0 ∧ c4.stk.frames = [⟨.BacktrackData, 3, 1, 0⟩] ∧
      exec sentinelProg [97, 98, 0] 2 5 (entry 1 Stack.initial) = .running c5 ∧
      c5.pc = 3 ∧ c5.pos = 1 ∧ c5.stk.frames = [] :=
  ⟨_, _, _, rfl, rfl, rfl, rfl, rfl, rfl, rfl, rfl, rfl, rfl, rfl⟩

/-- C10 (charset at end of input), the code at its failing inputs.  `Charset` reads
`*pos` without comparing `pos` with `end`.  On the empty string (a buffer holding
only the terminating 0) with a set that holds 0, `[Charset(set, 0), End]` from
position `0 = |S|` returns position 1; on the buffer `"ab"` with `end` after the
first code unit and the set `{'b'}`, from position `1 = end` it returns 2; and
when nothing readable follows `end` the read is outside the buffer. -/
theorem charset_reads_at_end :
    cpeg_match [mkCharset (charsetOf [0]) 0, mkEnd] [] Stack.initial 3 =
      some (.ret (.success 1) Stack.initial) ∧
    run [mkCharset (charsetOf [98]) 0, mkEnd] [97, 98] 1 1 Stack.initial 3 =
      some (.ret (.success 2) Stack.initial) ∧
    run [mkCharset (charsetOf [98]) 0, mkEnd] [97] 1 1 Stack.initial 3 = some .undefined := by
  refine ⟨?_, ?_, ?_⟩ <;> decide

/-- C11 (charset membership of wide code units), the code at its failing inputs.
For a charset of `CHARSET_BYTES = 32` bytes and a code unit `ch > 255`, the
macro `IN_CHARSET` reads the byte `set[ch >> 3]` with `ch >> 3 ≥ 32`, outside the
array, instead of reporting non-membership.  So `[Charset({'a'}, 0), End]` on the
code unit 256 and `[Span({'a'}), End]` on `'a'` followed by 256 read outside the
instruction's set. -/
theorem charset_wide_unit_out_of_bounds :
    (∀ (set : Charset) (ch : Nat), set.length = CHARSET_BYTES → 255 < ch →
      32 ≤ ch >>> 3 ∧ IN_CHARSET set ch = none) ∧
    run [mkCharset (charsetOf [97]) 0, mkEnd] [256, 0] 0 1 Stack.initial 3 =
      some .undefined ∧
    run [mkSpan (charsetOf [97]), mkEnd] [97, 256, 0] 0 2 Stack.initial 5 =
      some .undefined := by
  refine ⟨?_, by decide, by decide⟩
  intro set ch hlen hch
  have hidx : 32 ≤ ch >>> 3 := by
    rw [Nat.shiftRight_eq_div_pow]
    omega
  refine ⟨hidx, ?_⟩
  have hnone : set[ch >>> 3]? = none := by
    apply List.getElem?_eq_none
    rw [hlen]
    exact hidx
  simp only [IN_CHARSET, hnone]

/-- C12 (fatal frame-type mismatch), the code at its failing input.  `Return` does
not look at the tag of the top frame: dispatched on a Backtrack frame it takes
the frame's `alternative` as the resume address, pops the frame and goes on, so
`[Choice(3, 0), Return, Fail, End]` returns `success 0`.  `PartialCommit` and
`BackCommit` dispatched on a Return frame stop in `assert(0)`. -/
theorem return_ignores_frame_tag :
    (∀ (prog : List Instruction) (mem : List Nat) (endp : Int) (c : Config)
        (instr : Instruction) (e : StackEntry),
      c.pc ≠ FAIL → prog[c.pc]? = some instr → instr.instr = .iReturn →
      STACK_TOP c.stk = some e → e.entry_type = .BacktrackData →
      step prog mem endp c =
        .running { c with pc := e.alternative, stk := STACK_POP c.stk }) ∧
    resultOf (run [mkChoice 3 0, mkReturn, mkFail, mkEnd] [97, 0] 0 1 Stack.initial 3) =
      some (.success 0) ∧
    (∀ (prog : List Instruction) (mem : List Nat) (endp : Int) (c : Config)
        (instr : Instruction) (e : StackEntry),
      c.pc ≠ FAIL → prog[c.pc]? = some instr →
      instr.instr = .iPartialCommit ∨ instr.instr = .iBackCommit →
      STACK_TOP c.stk = some e → e.entry_type = .ReturnData →
      step prog mem endp c = .done .abort) ∧
    run [mkCall 1, mkPartialCommit 1, mkEnd] [97, 0] 0 1 Stack.initial 2 = some .abort ∧
    run [mkCall 1, mkBackCommit 1, mkEnd] [97, 0] 0 1 Stack.initial 2 = some .abort := by
  refine ⟨?_, by decide, ?_, by decide, by decide⟩
  · intro prog mem endp c instr e hpc hi hop htop _
    rw [step_eq_dispatch hpc hi]
    simp only [dispatch, hop, htop, StackEntry.ret]
  · intro prog mem endp c instr e hpc hi hop htop htag
    rw [step_eq_dispatch hpc hi]
    rcases hop with hop | hop
    · simp only [dispatch, hop, STACK_TOPTYPE, htop, Option.map_some', htag]
    · simp only [dispatch, hop, htop, htag]

/-- C13 (unlinked OpenCall), as amended.  When the loop dispatches `OpenCall`, or an
opcode value outside the enumeration, it skips the instruction: the program
counter advances by one, position, capture and stack are unchanged, and the loop
goes on with the following instruction.  `[OpenCall, End]` returns `success k`
and leaves the globals as they were. -/
theorem opencall_skipped (prog : List Instruction) (mem : List Nat) (endp : Int) (c : Config)
    (instr : Instruction) (hpc : c.pc ≠ FAIL) (hi : prog[c.pc]? = some instr)
    (hop : instr.instr = .iOpenCall ∨ ∃ n, instr.instr = .other n) :
    step prog mem endp c = .running { c with pc := succPc c.pc } ∧
    ∀ (S rest : List Nat) (k : Int) (stk : Stack) (fuel : Nat), 2 ≤ fuel →
      run [instr, mkEnd] (S ++ rest) k S.length stk fuel = some (.ret (.success k) stk) := by
  refine ⟨step_default instr hpc hi hop, ?_⟩
  intro S rest k stk fuel hfuel
  have h1 : step [instr, mkEnd] (S ++ rest) S.length (entry k stk) =
      .running ⟨1, k, 0, stk⟩ :=
    step_default instr (by simp [entry, FAIL]) (List.getElem?_cons_zero) hop
  have h2 : step [instr, mkEnd] (S ++ rest) S.length ⟨1, k, 0, stk⟩ =
      .done (.ret (.success k) stk) :=
    step_end (show [instr, mkEnd][1]? = some mkEnd from rfl) rfl (by simp [FAIL])
  exact run_mono (run_of_exec (exec_trans (exec_one h1) (exec_one h2))) hfuel

/-- C13 at `[OpenCall, End]`, entered at its first instruction. -/
theorem opencall_skipped_witness :
    (entry 0 Stack.initial).pc ≠ FAIL ∧
    [mkOpenCall, mkEnd][(entry 0 Stack.initial).pc]? = some mkOpenCall ∧
    (mkOpenCall.instr = .iOpenCall ∨ ∃ n, mkOpenCall.instr = .other n) ∧
    step [mkOpenCall, mkEnd] [97, 0] 1 (entry 0 Stack.initial) =
      .running { entry 0 Stack.initial with pc := succPc (entry 0 Stack.initial).pc } :=
  ⟨by decide, rfl, Or.inl rfl,
    (opencall_skipped [mkOpenCall, mkEnd] [97, 0] 1 (entry 0 Stack.initial) mkOpenCall
      (by decide) rfl (Or.inl rfl)).1⟩

/-- C13 as stated fails.  `[OpenCall, End]` on `"a"` from position 0 does not stop
with an error: the second iteration dispatches `End` and the call returns
`success 0`. -/
theorem opencall_skipped_counterexample :
    run [mkOpenCall, mkEnd] [97, 0] 0 1 Stack.initial 2 =
      some (.ret (.success 0) Stack.initial) ∧
    run [plain (.other 16) 0, mkEnd] [97, 0] 0 1 Stack.initial 2 =
      some (.ret (.success 0) Stack.initial) := by
  constructor <;> decide

/-- C14 (zero-length success).  For every input `S` (followed in memory by any
`rest`), every start `k` (in particular every `k` with `0 ≤ k ≤ |S|`) and every
state of the globals at entry, `run` on `[End]` returns `success k` and leaves the
globals unchanged. -/
theorem zero_length_success (S rest : List Nat) (k : Nat) (stk : Stack)
    (fuel : Nat) (hfuel : 1 ≤ fuel) :
    run [mkEnd] (S ++ rest) k S.length stk fuel = some (.ret (.success k) stk) := by
  have h1 : step [mkEnd] (S ++ rest) S.length (entry k stk) =
      .done (.ret (.success k) stk) :=
    step_end (show [mkEnd][0]? = some mkEnd from rfl) rfl (by simp [FAIL])
  exact run_mono (run_of_exec (exec_one h1)) hfuel

/-- C14 at `S = "ab"`, `k = 2 = |S|`, entered with four frames on the stack. -/
theorem zero_length_success_witness :
    1 ≤ 1 ∧
    run [mkEnd] ([97, 98] ++ [0]) (2 : Nat) ([97, 98] : List Nat).length sampleStack 1 =
      some (.ret (.success (2 : Nat)) sampleStack) :=
  ⟨by decide, zero_length_success [97, 98] [0] 2 sampleStack 1 (by decide)⟩

/-- C15 (the `Any(n)` step).  Dispatching `Any(n)` with offset `d` at a program
counter `pc` and a position `pos ≤ end` moves to `(pc+1, pos+n)` if and only if
`n ≤ end - pos`; otherwise the position is unchanged and the program counter
becomes `pc + d` (in `unsigned int` arithmetic) when `d ≠ 0` and `FAIL` when
`d = 0`.  The position never passes `end`, and capture and stack are unchanged.
`[Any(n, 0), End]` from `k ≤ |S|`, entered with an empty stack, returns
`success (k+n)` if `k + n ≤ |S|` and no-match otherwise. -/
theorem any_step (prog : List Instruction) (mem : List Nat) (endp : Int) (pc : Nat)
    (pos : Int) (cap : Nat) (stk : Stack) (instr : Instruction) (hpc : pc < 4294967295)
    (hi : prog[pc]? = some instr) (hop : instr.instr = .iAny) (hpos : pos ≤ endp) :
    (step prog mem endp ⟨pc, pos, cap, stk⟩ =
      if (instr.count : Int) ≤ endp - pos then
        .running ⟨pc + 1, pos + instr.count, cap, stk⟩
      else if instr.offset ≠ 0 then .running ⟨addOffset pc instr.offset, pos, cap, stk⟩
      else .running ⟨FAIL, pos, cap, stk⟩) ∧
    (step prog mem endp ⟨pc, pos, cap, stk⟩ = .running ⟨pc + 1, pos + instr.count, cap, stk⟩
      ↔ (instr.count : Int) ≤ endp - pos) ∧
    (∃ c1, step prog mem endp ⟨pc, pos, cap, stk⟩ = .running c1 ∧ c1.pos ≤ endp ∧
      c1.capture = cap ∧ c1.stk = stk) ∧
    (∀ (n : Nat) (S rest : List Nat) (k : Nat) (stk0 : Stack) (fuel : Nat),
      k ≤ S.length → stk0.stackpos = -1 → 2 ≤ fuel →
      run [mkAny n 0, mkEnd] (S ++ rest) k S.length stk0 fuel =
        some (.ret (if k + n ≤ S.length then .success (k + n) else .noMatch) stk0)) := by
  have hne : (⟨pc, pos, cap, stk⟩ : Config).pc ≠ FAIL := by
    show pc ≠ 4294967295
    omega
  have hsucc : succPc pc = pc + 1 := by
    unfold succPc
    omega
  have hstep : step prog mem endp ⟨pc, pos, cap, stk⟩ =
      if (instr.count : Int) ≤ endp - pos then
        .running ⟨pc + 1, pos + instr.count, cap, stk⟩
      else if instr.offset ≠ 0 then .running ⟨addOffset pc instr.offset, pos, cap, stk⟩
      else .running ⟨FAIL, pos, cap, stk⟩ := by
    rw [step_any instr hne hi hop]
    show (if (instr.count : Int) ≤ endp - pos then
        Status.running ⟨succPc pc, pos + instr.count, cap, stk⟩
      else if instr.offset ≠ 0 then .running ⟨addOffset pc instr.offset, pos, cap, stk⟩
      else .running ⟨FAIL, pos, cap, stk⟩) = _
    rw [hsucc]
  refine ⟨hstep, ?_, ?_, ?_⟩
  · rw [hstep]
    constructor
    · intro h
      by_contra hc
      rw [if_neg hc] at h
      split at h
      · simp only [Status.running.injEq, Config.mk.injEq] at h
        omega
      · simp only [Status.running.injEq, Config.mk.injEq] at h
        omega
    · intro h
      rw [if_pos h]
  · rw [hstep]
    by_cases hc : (instr.count : Int) ≤ endp - pos
    · rw [if_pos hc]
      exact ⟨_, rfl, by show pos + (instr.count : Int) ≤ endp; omega, rfl, rfl⟩
    · rw [if_neg hc]
      split
      · exact ⟨_, rfl, hpos, rfl, rfl⟩
      · exact ⟨_, rfl, hpos, rfl, rfl⟩
  · intro n S rest k stk0 fuel hk hstk hfuel
    have h0 : (entry (k : Int) stk0).pc ≠ FAIL := by simp [entry, FAIL]
    have hi0 : [mkAny n 0, mkEnd][(entry (k : Int) stk0).pc]? = some (mkAny n 0) := rfl
    by_cases hc : k + n ≤ S.length
    · rw [if_pos hc]
      have hc1 : ((mkAny n 0).count : Int) ≤ (S.length : Int) - (entry (k : Int) stk0).pos := by
        show ((n : Nat) : Int) ≤ (S.length : Int) - (k : Int)
        omega
      have hs1 : step [mkAny n 0, mkEnd] (S ++ rest) S.length (entry (k : Int) stk0) =
          .running ⟨1, (k : Int) + (n : Int), 0, stk0⟩ := by
        rw [step_any (mkAny n 0) h0 hi0 rfl, if_pos hc1]
        rfl
      have h2 : step [mkAny n 0, mkEnd] (S ++ rest) S.length
          ⟨1, (k : Int) + (n : Int), 0, stk0⟩ =
          .done (.ret (.success ((k : Int) + (n : Int))) stk0) :=
        step_end (show [mkAny n 0, mkEnd][1]? = some mkEnd from rfl) rfl (by decide)
      exact run_mono (run_of_exec (exec_trans (exec_one hs1) (exec_one h2))) hfuel
    · rw [if_neg hc]
      have hc1 : ¬ ((mkAny n 0).count : Int) ≤ (S.length : Int) - (entry (k : Int) stk0).pos := by
        show ¬ ((n : Nat) : Int) ≤ (S.length : Int) - (k : Int)
        omega
      have hoff : ¬ (mkAny n 0).offset ≠ 0 := by
        show ¬ (0 : Int) ≠ 0
        simp
      have hs1 : step [mkAny n 0, mkEnd] (S ++ rest) S.length (entry (k : Int) stk0) =
          .running ⟨FAIL, (k : Int), 0, stk0⟩ := by
        rw [step_any (mkAny n 0) h0 hi0 rfl, if_neg hc1, if_neg hoff]
        rfl
      have h2 : step [mkAny n 0, mkEnd] (S ++ rest) S.length ⟨FAIL, (k : Int), 0, stk0⟩ =
          .done (.ret .noMatch stk0) :=
        step_fail_empty _ _ _ _ rfl hstk
      exact run_mono (run_of_exec (exec_trans (exec_one hs1) (exec_one h2))) hfuel

/-- C15 at `[Any(2, 0), End]` on `"ab"` from position 0: two code units remain,
so the step moves to `(pc+1, pos+2)`. -/
theorem any_step_witness :
    (0 : Nat) < 4294967295 ∧ [mkAny 2 0, mkEnd][0]? = some (mkAny 2 0) ∧
    (mkAny 2 0).instr = .iAny ∧ (0 : Int) ≤ 2 ∧
    step [mkAny 2 0, mkEnd] [97, 98, 0] 2 ⟨0, 0, 0, Stack.initial⟩ =
      .running ⟨0 + 1, 0 + ((mkAny 2 0).count : Int), 0, Stack.initial⟩ :=
  ⟨by decide, rfl, rfl, by decide,
    (any_step [mkAny 2 0, mkEnd] [97, 98, 0] 2 0 0 0 Stack.initial (mkAny 2 0) (by decide) rfl
      rfl (by decide)).2.1.2 (by decide)⟩

/-- C16 (the `PartialCommit` frame).  In a state whose stack is consistent and
whose top frame `e` is a Backtrack frame, dispatching `PartialCommit` with
offset `d` sets the program counter to `pc + d` (in `unsigned int` arithmetic),
leaves position and capture unchanged, leaves `stackpos` and `stacksize`
unchanged, leaves the frames below the top unchanged, and replaces the top frame
by `e` with its saved position and saved capture set to the current position and
capture (tag and alternative as before). -/
theorem partial_commit_frame (prog : List Instruction) (mem : List Nat) (endp : Int)
    (c : Config) (instr : Instruction) (lower : List StackEntry) (e : StackEntry)
    (hpc : c.pc ≠ FAIL) (hi : prog[c.pc]? = some instr) (hop : instr.instr = .iPartialCommit)
    (hwf : c.stk.wf) (hfr : c.stk.frames = lower ++ [e])
    (htag : e.entry_type = .BacktrackData) :
    ∃ g1, step prog mem endp c =
        .running ⟨addOffset c.pc instr.offset, c.pos, c.capture, g1⟩ ∧
      g1.stackpos = c.stk.stackpos ∧ g1.stacksize = c.stk.stacksize ∧
      g1.frames.length = c.stk.frames.length ∧
      g1.frames = lower ++ [⟨e.entry_type, e.alternative, c.pos, c.capture⟩] := by
  obtain ⟨g1, h1, _, h3, h4, h5, _⟩ := step_partialcommit instr hpc hi hop hwf hfr htag
  refine ⟨g1, h1, h3, h4, ?_, h5⟩
  rw [h5, hfr, List.length_append, List.length_append]
  rfl

/-- C16 at `PartialCommit(-1)` of `[Choice(3,0), Char('a',0), PartialCommit(-1), End]`,
position 4, on a stack of two Backtrack frames. -/
theorem partial_commit_frame_witness :
    (⟨2, 4, 0, twoFrames⟩ : Config).pc ≠ FAIL ∧
    (starProg 97)[(⟨2, 4, 0, twoFrames⟩ : Config).pc]? = some (mkPartialCommit (-1)) ∧
    (mkPartialCommit (-1)).instr = .iPartialCommit ∧ twoFrames.wf ∧
    twoFrames.frames = [⟨.BacktrackData, 2, 0, 0⟩] ++ [⟨.BacktrackData, 3, 1, 0⟩] ∧
    ∃ g1, step (starProg 97) [97, 97, 97, 97, 98, 0] 5 ⟨2, 4, 0, twoFrames⟩ =
        .running ⟨addOffset 2 (mkPartialCommit (-1)).offset, 4, 0, g1⟩ ∧
      g1.stackpos = twoFrames.stackpos ∧ g1.stacksize = twoFrames.stacksize ∧
      g1.frames.length = twoFrames.frames.length ∧
      g1.frames = [⟨.BacktrackData, 2, 0, 0⟩] ++ [⟨.BacktrackData, 3, 4, 0⟩] :=
  have hwf : twoFrames.wf := ⟨rfl, by decide, by decide⟩
  ⟨by decide, rfl, rfl, hwf, rfl,
    partial_commit_frame (starProg 97) [97, 97, 97, 97, 98, 0] 5 ⟨2, 4, 0, twoFrames⟩
      (mkPartialCommit (-1)) [⟨.BacktrackData, 2, 0, 0⟩] ⟨.BacktrackData, 3, 1, 0⟩
      (by decide) rfl rfl hwf rfl rfl⟩

/-- C17 (greedy repetition loop).  For every code unit `c`, input `S` (followed in
memory by any `rest`) and start `k ≤ |S|`, `run` on
`[Choice(3, 0), Char(c, 0), PartialCommit(-1), End]`, entered with an empty stack,
terminates and returns `success p`, where `p` is the end of the maximal run of
`c` from `k`: every position from `k` up to `p` holds `c`, and `p = |S|` or
`S[p] ≠ c`.  The stack is empty on return, and no configuration the loop reaches
holds more than one frame. -/
theorem greedy_repetition (c : Nat) (S rest : List Nat) (k : Nat) (hk : k ≤ S.length)
    (stk : Stack) (hwf : stk.wf) (hstk : stk.stackpos = -1) :
    ∃ p stk1, k ≤ p ∧ p ≤ S.length ∧ (∀ i, k ≤ i → i < p → S[i]? = some c) ∧
      S[p]? ≠ some c ∧ stk1.stackpos = -1 ∧
      (∀ fuel, 2 * S.length + 4 ≤ fuel →
        run (starProg c) (S ++ rest) k S.length stk fuel = some (.ret (.success p) stk1)) ∧
      (∀ n cfg, exec (starProg c) (S ++ rest) S.length n (entry k stk) = .running cfg →
        cfg.stk.stackpos ≤ 0) := by
  obtain ⟨g1, hs0, hwf1, -, -, hfr1⟩ :=
    step_choice (S ++ rest) S.length k 0 (show (starProg c)[0]? = some (mkChoice 3 0) from rfl)
      rfl (by decide) hwf (canGrow_of_empty hwf hstk)
  have hfr : g1.frames = [⟨.BacktrackData, 3, (k : Int), 0⟩] := by
    rw [hfr1, frames_empty hstk]
    show [(⟨.BacktrackData, addOffset 0 3, (k : Int) - ((0 : Nat) : Int), 0⟩ : StackEntry)] = _
    rw [Nat.cast_zero, sub_zero]
    rfl
  have hs0a : exec (starProg c) (S ++ rest) S.length 1 (entry k stk) =
      .running ⟨1, k, 0, g1⟩ := exec_one hs0
  obtain ⟨q, g2, k1, k2, k3, k4, k5, k6, k7⟩ :=
    star_loop c S rest (S.length - k) k g1 (by omega) hwf1 hfr
  refine ⟨q, g2, k1, k2, k3, k4, k5, ?_, ?_⟩
  · intro fuel hfuel
    exact run_mono (run_of_exec (exec_trans hs0a k6)) (by omega)
  · intro n cfg hn
    by_cases n0 : n = 0
    · subst n0
      cases hn
      show stk.stackpos ≤ 0
      omega
    · obtain ⟨m, rfl⟩ : ∃ m, n = 1 + m := ⟨n - 1, by omega⟩
      rw [exec_add, hs0a] at hn
      exact k7 m cfg hn

/-- C17 at `c = 'a'`, `S = "aab"`, `k = 0` and the initial globals. -/
theorem greedy_repetition_witness :
    0 ≤ ([97, 97, 98] : List Nat).length ∧ Stack.initial.wf ∧ Stack.initial.stackpos = -1 ∧
    ∃ p stk1, 0 ≤ p ∧ p ≤ ([97, 97, 98] : List Nat).length ∧
      (∀ i, 0 ≤ i → i < p → ([97, 97, 98] : List Nat)[i]? = some 97) ∧
      ([97, 97, 98] : List Nat)[p]? ≠ some 97 ∧ stk1.stackpos = -1 ∧
      (∀ fuel, 2 * ([97, 97, 98] : List Nat).length + 4 ≤ fuel →
        run (starProg 97) ([97, 97, 98] ++ [0]) (0 : Nat) ([97, 97, 98] : List Nat).length
          Stack.initial fuel = some (.ret (.success p) stk1)) ∧
      (∀ n cfg, exec (starProg 97) ([97, 97, 98] ++ [0]) ([97, 97, 98] : List Nat).length n
          (entry (0 : Nat) Stack.initial) = .running cfg → cfg.stk.stackpos ≤ 0) :=
  ⟨by decide, wf_initial, rfl,
    greedy_repetition 97 [97, 97, 98] [0] 0 (by decide) Stack.initial wf_initial rfl⟩

/-- C18 (and-predicate via `BackCommit`).  For a literal `inner`, input `S` (followed
in memory by any `rest`) and start `k`, `run` on
`[Choice(|inner|+2, 0), inner, BackCommit(2), Fail, End]`, entered with an empty
stack, returns `success k` (the position restored to `k`) when `inner` occurs in
`S` at `k` and no-match otherwise; in both cases the stack is empty on return. -/
theorem and_predicate (inner S rest : List Nat) (k : Nat) (stk : Stack) (hwf : stk.wf)
    (hstk : stk.stackpos = -1) (hsize : inner.length + 4 < 2147483648) :
    ∃ stk1, stk1.stackpos = -1 ∧ ∀ fuel, inner.length + 4 ≤ fuel →
      run (andProg inner) (S ++ rest) k S.length stk fuel =
        some (.ret (if occursAt inner S k then .success k else .noMatch) stk1) := by
  obtain ⟨g1, hs0, -, hg1pos, hg1top, -⟩ :=
    step_choice (S ++ rest) S.length k 0 (andProg_zero inner) rfl (by omega) hwf (canGrow_of_empty hwf hstk)
  have hpop : (STACK_POP g1).stackpos = -1 := by
    show g1.stackpos - 1 = -1
    omega
  have hne1 : g1.stackpos ≠ -1 := by omega
  have halt : addOffset 0 (mkChoice (inner.length + 2) 0).offset = inner.length + 2 := by
    show ((((0 : Nat) : Int) + ((inner.length : Int) + 2)) % 4294967296).toNat = _
    omega
  have hs0a : exec (andProg inner) (S ++ rest) S.length 1 (entry k stk) =
      .running ⟨1, k, 0, g1⟩ := exec_one hs0
  have hbc : (andProg inner)[1 + inner.length]? = some (mkBackCommit 2) := by
    have := andProg_tail inner 0
    rw [Nat.add_zero] at this
    rw [Nat.add_comm, this]
    rfl
  have hfl : (andProg inner)[inner.length + 2]? = some mkFail := andProg_tail inner 1
  have hen : (andProg inner)[inner.length + 3]? = some mkEnd := andProg_tail inner 2
  refine ⟨STACK_POP g1, hpop, ?_⟩
  intro fuel hfuel
  by_cases hA : occursAt inner S k
  · rw [if_pos hA]
    have hlit := exec_literal_prefix (andProg inner) S rest inner 1 k 0 g1
      (andProg_inner inner) (by omega) inner.length le_rfl ((occursAt_iff inner S k).1 hA)
    have hb : step (andProg inner) (S ++ rest) S.length
        ⟨1 + inner.length, ((k + inner.length : Nat) : Int), 0, g1⟩ =
        .running ⟨inner.length + 3, k, 0, STACK_POP g1⟩ := by
      rw [step_backcommit (mkBackCommit 2) hbc rfl
        (by show 1 + inner.length ≠ 4294967295; omega) hg1top rfl]
      have e1 : addOffset (1 + inner.length) (mkBackCommit 2).offset = inner.length + 3 := by
        show ((((1 + inner.length : Nat) : Int) + 2) % 4294967296).toNat = _
        omega
      show Status.running ⟨addOffset (1 + inner.length) (mkBackCommit 2).offset,
        (k : Int) - ((0 : Nat) : Int), 0, STACK_POP g1⟩ = _
      rw [e1, Nat.cast_zero, sub_zero]
    have hend : step (andProg inner) (S ++ rest) S.length
        ⟨inner.length + 3, (k : Int), 0, STACK_POP g1⟩ =
        .done (.ret (.success (k : Int)) (STACK_POP g1)) :=
      step_end hen rfl (by show inner.length + 3 ≠ 4294967295; omega)
    have hall := exec_trans hs0a (exec_trans hlit (exec_trans (exec_one hb) (exec_one hend)))
    exact run_mono (run_of_exec hall) (by omega)
  · rw [if_neg hA]
    obtain ⟨j, hj, hjm, hjx⟩ := first_miss inner S k hA
    have hlit := exec_literal_miss (andProg inner) S rest inner 1 k 0 g1
      (andProg_inner inner) (by omega) j hj hjm hjx
    have hrec : step (andProg inner) (S ++ rest) S.length
        ⟨FAIL, ((k + j : Nat) : Int), 0, g1⟩ =
        .running ⟨inner.length + 2, k, 0, STACK_POP g1⟩ := by
      rw [step_fail_backtrack _ _ _ hne1 hg1top rfl]
      show Status.running ⟨addOffset 0 (mkChoice (inner.length + 2) 0).offset,
        (k : Int) - ((0 : Nat) : Int), _, _⟩ = _
      rw [halt, Nat.cast_zero, sub_zero]
    have hf : step (andProg inner) (S ++ rest) S.length
        ⟨inner.length + 2, (k : Int), 0, STACK_POP g1⟩ =
        .running ⟨FAIL, (k : Int), 0, STACK_POP g1⟩ :=
      step_fail_instr mkFail hfl rfl (by show inner.length + 2 ≠ 4294967295; omega)
    have hfin : step (andProg inner) (S ++ rest) S.length
        ⟨FAIL, (k : Int), 0, STACK_POP g1⟩ = .done (.ret .noMatch (STACK_POP g1)) :=
      step_fail_empty _ _ _ _ rfl hpop
    have hall := exec_trans hs0a (exec_trans hlit (exec_trans (exec_one hrec)
      (exec_trans (exec_one hf) (exec_one hfin))))
    exact run_mono (run_of_exec hall) (by omega)

/-- C18 at `inner = "ab"`, `S = "abc"`, `k = 0` and the initial globals. -/
theorem and_predicate_witness :
    Stack.initial.wf ∧ Stack.initial.stackpos = -1 ∧
    ([97, 98] : List Nat).length + 4 < 2147483648 ∧
    ∃ stk1, stk1.stackpos = -1 ∧ ∀ fuel, ([97, 98] : List Nat).length + 4 ≤ fuel →
      run (andProg [97, 98]) ([97, 98, 99] ++ []) (0 : Nat) ([97, 98, 99] : List Nat).length
          Stack.initial fuel =
        some (.ret (if occursAt [97, 98] [97, 98, 99] 0 then .success (0 : Nat) else .noMatch)
          stk1) :=
  ⟨wf_initial, rfl, by decide,
    and_predicate [97, 98] [97, 98, 99] [] 0 Stack.initial wf_initial rfl (by decide)⟩

/-- C19 (call/return transparency).  For a literal `body`, input `S` (followed in
memory by any `rest`) and start `k`, `run` on `[Call(2), End, body, Return]`,
entered with an empty stack, returns the same result as `run` on `[body, End]`:
`success (k+|body|)` when `body` occurs in `S` at `k`, and no-match otherwise; in
both cases the stack is empty on return. -/
theorem call_return_transparent (body S rest : List Nat) (k : Nat) (stk : Stack)
    (hwf : stk.wf) (hstk : stk.stackpos = -1) (hsize : body.length + 3 < 2147483648) :
    ∃ stk1, stk1.stackpos = -1 ∧ ∀ fuel, body.length + 3 ≤ fuel →
      run (callProg body) (S ++ rest) k S.length stk fuel =
        some (.ret (if occursAt body S k then .success (k + body.length) else .noMatch)
          stk1) ∧
      run (inlineProg body) (S ++ rest) k S.length stk fuel =
        some (.ret (if occursAt body S k then .success (k + body.length) else .noMatch)
          stk) ∧
      resultOf (run (callProg body) (S ++ rest) k S.length stk fuel) =
        resultOf (run (inlineProg body) (S ++ rest) k S.length stk fuel) := by
  obtain ⟨g1, e, hs0, -, hg1pos, hg1top, hetag, heret, -⟩ :=
    step_call (S ++ rest) S.length k 0 (callProg_zero body) rfl (by omega) hwf (canGrow_of_empty hwf hstk)
  have hpop : (STACK_POP g1).stackpos = -1 := by
    show g1.stackpos - 1 = -1
    omega
  have hne1 : g1.stackpos ≠ -1 := by omega
  have hs0a : exec (callProg body) (S ++ rest) S.length 1 (entry k stk) =
      .running ⟨2, k, 0, g1⟩ := by
    refine exec_one ?_
    show step (callProg body) (S ++ rest) S.length ⟨0, k, 0, stk⟩ = _
    rw [hs0]
    rfl
  have hstart : (entry (k : Int) stk) = ⟨0, k, 0, stk⟩ := rfl
  refine ⟨STACK_POP g1, hpop, ?_⟩
  intro fuel hfuel
  have key : run (callProg body) (S ++ rest) k S.length stk fuel =
        some (.ret (if occursAt body S k then .success (k + body.length) else .noMatch)
          (STACK_POP g1)) ∧
      run (inlineProg body) (S ++ rest) k S.length stk fuel =
        some (.ret (if occursAt body S k then .success (k + body.length) else .noMatch)
          stk) := by
    by_cases hA : occursAt body S k
    · rw [if_pos hA]
      have hlit := exec_literal_prefix (callProg body) S rest body 2 k 0 g1
        (callProg_body body) (by omega) body.length le_rfl ((occursAt_iff body S k).1 hA)
      have hr : step (callProg body) (S ++ rest) S.length
          ⟨2 + body.length, ((k + body.length : Nat) : Int), 0, g1⟩ =
          .running ⟨1, ((k + body.length : Nat) : Int), 0, STACK_POP g1⟩ := by
        rw [step_return mkReturn (by rw [← callProg_return body]; congr 1; omega) rfl
          (by show 2 + body.length ≠ 4294967295; omega) hg1top, heret]
      have hend : step (callProg body) (S ++ rest) S.length
          ⟨1, ((k + body.length : Nat) : Int), 0, STACK_POP g1⟩ =
          .done (.ret (.success ((k + body.length : Nat) : Int)) (STACK_POP g1)) :=
        step_end (callProg_one body) rfl (by decide)
      have hall := exec_trans hs0a (exec_trans hlit (exec_trans (exec_one hr) (exec_one hend)))
      have hlit2 := exec_literal_prefix (inlineProg body) S rest body 0 k 0 stk
        (inlineProg_body body) (by omega) body.length le_rfl ((occursAt_iff body S k).1 hA)
      have hend2 : step (inlineProg body) (S ++ rest) S.length
          ⟨0 + body.length, ((k + body.length : Nat) : Int), 0, stk⟩ =
          .done (.ret (.success ((k + body.length : Nat) : Int)) stk) :=
        step_end (by rw [Nat.zero_add]; exact inlineProg_end body) rfl
          (by show 0 + body.length ≠ 4294967295; omega)
      have hall2 := exec_trans hlit2 (exec_one hend2)
      rw [← hstart] at hall2
      have r1 := run_mono (run_of_exec hall) (m := fuel) (by omega)
      have r2 := run_mono (run_of_exec hall2) (m := fuel) (by omega)
      rw [r1, r2]
      push_cast
      exact ⟨rfl, rfl⟩
    · rw [if_neg hA]
      obtain ⟨j, hj, hjm, hjx⟩ := first_miss body S k hA
      have hlit := exec_literal_miss (callProg body) S rest body 2 k 0 g1
        (callProg_body body) (by omega) j hj hjm hjx
      have hrec : step (callProg body) (S ++ rest) S.length
          ⟨FAIL, ((k + j : Nat) : Int), 0, g1⟩ =
          .running ⟨FAIL, ((k + j : Nat) : Int), 0, STACK_POP g1⟩ :=
        step_fail_return _ _ _ hne1 hg1top hetag
      have hfin : step (callProg body) (S ++ rest) S.length
          ⟨FAIL, ((k + j : Nat) : Int), 0, STACK_POP g1⟩ =
          .done (.ret .noMatch (STACK_POP g1)) := step_fail_empty _ _ _ _ rfl hpop
      have hall := exec_trans hs0a (exec_trans hlit (exec_trans (exec_one hrec)
        (exec_one hfin)))
      have hlit2 := exec_literal_miss (inlineProg body) S rest body 0 k 0 stk
        (inlineProg_body body) (by omega) j hj hjm hjx
      have hfin2 : step (inlineProg body) (S ++ rest) S.length
          ⟨FAIL, ((k + j : Nat) : Int), 0, stk⟩ = .done (.ret .noMatch stk) :=
        step_fail_empty _ _ _ _ rfl hstk
      have hall2 := exec_trans hlit2 (exec_one hfin2)
      rw [← hstart] at hall2
      exact ⟨run_mono (run_of_exec hall) (by omega), run_mono (run_of_exec hall2) (by omega)⟩
  refine ⟨key.1, key.2, ?_⟩
  rw [key.1, key.2]
  rfl

/-- C19 at `body = "ab"`, `S = "abc"`, `k = 0` and the initial globals. -/
theorem call_return_transparent_witness :
    Stack.initial.wf ∧ Stack.initial.stackpos = -1 ∧
    ([97, 98] : List Nat).length + 3 < 2147483648 ∧
    ∃ stk1, stk1.stackpos = -1 ∧ ∀ fuel, ([97, 98] : List Nat).length + 3 ≤ fuel →
      run (callProg [97, 98]) ([97, 98, 99] ++ []) (0 : Nat) ([97, 98, 99] : List Nat).length
          Stack.initial fuel =
        some (.ret (if occursAt [97, 98] [97, 98, 99] 0
          then .success ((0 : Nat) + ([97, 98] : List Nat).length) else .noMatch) stk1) ∧
      run (inlineProg [97, 98]) ([97, 98, 99] ++ []) (0 : Nat)
          ([97, 98, 99] : List Nat).length Stack.initial fuel =
        some (.ret (if occursAt [97, 98] [97, 98, 99] 0
          then .success ((0 : Nat) + ([97, 98] : List Nat).length) else .noMatch)
          Stack.initial) ∧
      resultOf (run (callProg [97, 98]) ([97, 98, 99] ++ []) (0 : Nat)
          ([97, 98, 99] : List Nat).length Stack.initial fuel) =
        resultOf (run (inlineProg [97, 98]) ([97, 98, 99] ++ []) (0 : Nat)
          ([97, 98, 99] : List Nat).length Stack.initial fuel) :=
  ⟨wf_initial, rfl, by decide,
    call_return_transparent [97, 98] [97, 98, 99] [] 0 Stack.initial wf_initial rfl
      (by decide)⟩

/-- C20 (stack is clean between matches), the code at its failing input.
`[Choice(1, 0), End]` on `"ab"`, entered with the initial globals, returns
`success 0` at `End` with the frame pushed by `Choice` still on the stack
(`stackpos = 0`); a following match of `[Fail, End]` backtracks into that frame
and returns `success 0`, although from an empty stack it returns no-match.  A
call that returns no-match does leave the stack empty. -/
theorem stack_left_at_end :
    resultOf (cpeg_match [mkChoice 1 0, mkEnd] [97, 98] Stack.initial 2) =
      some (.success 0) ∧
    (globalsAfter (cpeg_match [mkChoice 1 0, mkEnd] [97, 98] Stack.initial 2)
      Stack.initial).stackpos = 0 ∧
    resultOf (cpeg_match [mkFail, mkEnd] [97, 98]
      (globalsAfter (cpeg_match [mkChoice 1 0, mkEnd] [97, 98] Stack.initial 2)
        Stack.initial) 3) = some (.success 0) ∧
    resultOf (cpeg_match [mkFail, mkEnd] [97, 98] Stack.initial 3) = some .noMatch ∧
    (∀ (prog : List Instruction) (mem : List Nat) (target endp : Int) (stk : Stack)
        (fuel : Nat) (stk1 : Stack),
      run prog mem target endp stk fuel = some (.ret .noMatch stk1) →
      stk1.stackpos = -1) := by
  refine ⟨by rfl, by rfl, by rfl, by rfl, ?_⟩
  intro prog mem target endp stk fuel stk1 h
  unfold run at h
  cases hx : exec prog mem endp fuel (entry target stk) with
  | running c => rw [hx] at h; cases h
  | done o =>
    rw [hx] at h
    simp only [Option.some.injEq] at h
    subst h
    exact exec_noMatch fuel _ _ hx

end Cpeg
